import Mathlib

/-!
# Verification of the chunking / cache subsystem of `coderepoaiinsight`

Shallow embedding of the Python sources under `src/backend` (the chunkers,
the analysis cache, and the chunk-grouping / synthesis logic of the
enhanced analysis service), together with theorems settling the frozen
claims C1..C10.

Modelling conventions, used throughout:
* The tiktoken encoder (`self.encoding.encode`, an external library) is
  abstracted as an opaque cost function `enc : String → Nat`, exactly as the
  spec abstracts the Tokenizer/Estimator.  Concrete counterexamples and
  witnesses instantiate `enc := String.length`.
* Python float threshold tests such as `current_tokens > max_tokens * 0.9`
  are modelled by the exact integer comparison `10 * current > 9 * max`,
  and `int(len(lines) * 0.8)` by `(len * 8) / 10` (Nat division).  For the
  concrete parameter values used in witnesses and counterexamples the
  IEEE-754 double results coincide with these exact values.
* Python's `re.match` (prefix matching) of the source's regular expressions
  is implemented by deterministic greedy matchers over `List Char`; every
  pattern in the source alternates character classes with literals drawn
  from disjoint character sets, so greedy matching without backtracking is
  exact for them.
* File-system state (the cache directory) is modelled as an association
  list from cache key to entry; a file's mtime is a `Nat` timestamp.
-/

/-! ## Generic helpers -/

/-- Python list slicing `xs[k:]` where `k` may be negative:
a negative `k` counts from the end (`xs[-m:]` keeps the last `m` elements,
or the whole list when `m ≥ len(xs)`). -/
def pySliceFrom {α : Type} (xs : List α) (k : Int) : List α :=
  if 0 ≤ k then xs.drop k.toNat else xs.drop (xs.length - (-k).toNat)

/-- Python `xs[-n:]` for a positive literal `n` (the last `n` elements). -/
def takeLastN {α : Type} (n : Nat) (xs : List α) : List α :=
  xs.drop (xs.length - n)

/-- Whether `p` is a prefix of `l` (Boolean, on character lists). -/
def startsWithChars : List Char → List Char → Bool
  | [], _ => true
  | _ :: _, [] => false
  | p :: ps, c :: cs => p == c && startsWithChars ps cs

/-- Whether `needle` occurs as a contiguous sublist of `hay`. -/
def charsContain (needle : List Char) : List Char → Bool
  | [] => needle.isEmpty
  | c :: cs => startsWithChars needle (c :: cs) || charsContain needle cs

/-- Python's substring test `needle in hay`. -/
def strContains (hay needle : String) : Bool :=
  charsContain needle.toList hay.toList

/-! ## Character classes and greedy matchers for the source's regexes

`re` character classes restricted to ASCII, which is all the source's
patterns use: `\w` is `[A-Za-z0-9_]`, `\s` is `[ \t\n\r\x0b\x0c]`,
`\d` is `[0-9]`. -/

def isWordChar (c : Char) : Bool :=
  c.isAlpha || c.isDigit || c = '_'

def isWsChar (c : Char) : Bool :=
  c = ' ' || c = '\t' || c = '\n' || c = '\r' || c = '\x0b' || c = '\x0c'

/-- Python `str.upper()` restricted to ASCII (all the source's inputs and
patterns are ASCII), written over the character list so that proofs can
evaluate it. -/
def strUpperAscii (s : String) : String := String.mk (s.data.map Char.toUpper)

/-- Python `str.lower()` restricted to ASCII. -/
def strLowerAscii (s : String) : String := String.mk (s.data.map Char.toLower)

/-- Python `str.strip()` (whitespace from both ends). -/
def trimAscii (s : String) : String :=
  String.mk (((s.data.dropWhile isWsChar).reverse.dropWhile isWsChar).reverse)

/-- Split a character list at newline characters. -/
def splitNlChars : List Char → List (List Char)
  | [] => [[]]
  | c :: cs =>
    let r := splitNlChars cs
    if c = '\n' then [] :: r
    else
      match r with
      | h :: t => (c :: h) :: t
      | [] => [[c]]

/-- Python `str.splitlines()` for `\n`-separated text: no trailing empty
line is produced for text ending in a newline, and the empty string yields
no lines. -/
def pySplitlines (s : String) : List String :=
  if s = "" then []
  else
    let parts := (splitNlChars s.data).map String.mk
    if parts.getLast? = some "" then parts.dropLast else parts

/-- A matcher consumes a prefix of the input and returns the rest,
or fails.  Regex pieces are composed with `Option.bind`. -/
def Mtch : Type := List Char → Option (List Char)

/-- `\s*` -/
def mWs0 : Mtch := fun cs => some (cs.dropWhile isWsChar)

/-- `\s+` -/
def mWs1 : Mtch := fun cs =>
  match cs with
  | [] => none
  | c :: rest => if isWsChar c then some (rest.dropWhile isWsChar) else none

/-- `\w+` -/
def mWord1 : Mtch := fun cs =>
  match cs with
  | [] => none
  | c :: rest => if isWordChar c then some (rest.dropWhile isWordChar) else none

/-- `\d+` -/
def mDig1 : Mtch := fun cs =>
  match cs with
  | [] => none
  | c :: rest => if c.isDigit then some (rest.dropWhile Char.isDigit) else none

/-- `\d{n}` (exactly `n` digits) -/
def mDigExact : Nat → Mtch
  | 0 => fun cs => some cs
  | n + 1 => fun cs =>
    match cs with
    | [] => none
    | c :: rest => if c.isDigit then mDigExact n rest else none

/-- a single literal character -/
def mCh (c : Char) : Mtch := fun cs =>
  match cs with
  | [] => none
  | d :: rest => if d == c then some rest else none

/-- a literal string -/
def mLit (s : String) : Mtch := fun cs =>
  if startsWithChars s.toList cs then some (cs.drop s.toList.length) else none

/-- `[f]` (one character of a class) -/
def mOne (f : Char → Bool) : Mtch := fun cs =>
  match cs with
  | [] => none
  | c :: rest => if f c then some rest else none

/-- `[f]*` -/
def mMany (f : Char → Bool) : Mtch := fun cs => some (cs.dropWhile f)

/-- Run a sequence of matchers as a prefix match on a string
(the semantics of `re.match(pattern, s)` for the source's patterns). -/
def runMs (ms : List Mtch) (s : String) : Bool :=
  (ms.foldl (fun acc m => acc.bind m) (some s.toList)).isSome

/-! ## `src/backend/utils/cobol_chunker.py` -/

/-- Structural level of a COBOL boundary. -/
inductive BLevel where
  | division
  | section
  | paragraph
deriving DecidableEq, Repr

/-- A detected COBOL boundary: `{'type': ..., 'level': ...}` in the source
(the `'line'` field is never read afterwards and is omitted). -/
structure CobolBoundary where
  btype : String
  level : BLevel
deriving DecidableEq, Repr

/-- `self.division_patterns` of `CobolChunker.__init__`. -/
def divisionPatterns : List (List Mtch) :=
  [ [mWs0, mLit "IDENTIFICATION", mWs1, mLit "DIVISION", mWs0, mCh '.'],
    [mWs0, mLit "ENVIRONMENT", mWs1, mLit "DIVISION", mWs0, mCh '.'],
    [mWs0, mLit "DATA", mWs1, mLit "DIVISION", mWs0, mCh '.'],
    [mWs0, mLit "PROCEDURE", mWs1, mLit "DIVISION", mWs0, mCh '.'] ]

/-- `self.section_patterns` of `CobolChunker.__init__`. -/
def sectionPatterns : List (List Mtch) :=
  [ [mWs0, mLit "PROGRAM-ID", mWs0, mCh '.'],
    [mWs0, mLit "AUTHOR", mWs0, mCh '.'],
    [mWs0, mLit "DATE-WRITTEN", mWs0, mCh '.'],
    [mWs0, mLit "CONFIGURATION", mWs1, mLit "SECTION", mWs0, mCh '.'],
    [mWs0, mLit "INPUT-OUTPUT", mWs1, mLit "SECTION", mWs0, mCh '.'],
    [mWs0, mLit "FILE", mWs1, mLit "SECTION", mWs0, mCh '.'],
    [mWs0, mLit "WORKING-STORAGE", mWs1, mLit "SECTION", mWs0, mCh '.'],
    [mWs0, mLit "LINKAGE", mWs1, mLit "SECTION", mWs0, mCh '.'],
    [mWs0, mLit "LOCAL-STORAGE", mWs1, mLit "SECTION", mWs0, mCh '.'],
    [mWs0, mDig1, mWs1, mWord1, mCh '-', mLit "SECTION", mWs0, mCh '.'],
    [mWs0, mWord1, mCh '-', mLit "SECTION", mWs0, mCh '.'] ]

/-- `self.paragraph_patterns` of `CobolChunker.__init__`. -/
def paragraphPatterns : List (List Mtch) :=
  [ [mWs0, mDigExact 4, mCh '-', mWord1, mWs0, mCh '.'],
    [mWs0, mDigExact 3, mCh '-', mWord1, mWs0, mCh '.'],
    [mWs0, mDigExact 2, mCh '-', mWord1, mWs0, mCh '.'],
    [mWs0, mWord1, mCh '-', mWord1, mWs0, mCh '.'],
    [mWs0, mOne (fun c => 'A' ≤ c && c ≤ 'Z'),
      mMany (fun c => ('A' ≤ c && c ≤ 'Z') || c.isDigit || c = '-'), mWs0, mCh '.'] ]

/-- `line.upper().strip()`, the normalisation `_find_cobol_boundaries`
applies before pattern matching. -/
def normCobolLine (line : String) : String :=
  trimAscii (strUpperAscii line)

def matchesAnyDivision (u : String) : Bool :=
  divisionPatterns.any (fun p => runMs p u)

def matchesAnySection (u : String) : Bool :=
  sectionPatterns.any (fun p => runMs p u)

def matchesAnyParagraph (u : String) : Bool :=
  paragraphPatterns.any (fun p => runMs p u)

/-- `_extract_division_name` (input is the already-uppercased line). -/
def extractDivisionName (u : String) : String :=
  if strContains u "IDENTIFICATION" then "IDENTIFICATION_DIVISION"
  else if strContains u "ENVIRONMENT" then "ENVIRONMENT_DIVISION"
  else if strContains u "DATA" then "DATA_DIVISION"
  else if strContains u "PROCEDURE" then "PROCEDURE_DIVISION"
  else "UNKNOWN_DIVISION"

/-- `_extract_section_name`. -/
def extractSectionName (u : String) : String :=
  if strContains u "WORKING-STORAGE" then "WORKING_STORAGE_SECTION"
  else if strContains u "FILE" then "FILE_SECTION"
  else if strContains u "LINKAGE" then "LINKAGE_SECTION"
  else if strContains u "CONFIGURATION" then "CONFIGURATION_SECTION"
  else if strContains u "INPUT-OUTPUT" then "INPUT_OUTPUT_SECTION"
  else if strContains u "PROGRAM-ID" then "PROGRAM_ID"
  else "UNKNOWN_SECTION"

/-- `_extract_paragraph_name`: strip trailing periods, then spaces become
underscores.  (Python `rstrip('.')` then `strip()`.) -/
def extractParagraphName (u : String) : String :=
  let clean := trimAscii (String.mk ((u.toList.reverse.dropWhile (· = '.')).reverse))
  if clean = "" then "UNKNOWN_PARAGRAPH"
  else String.mk (clean.toList.map (fun c => if c = ' ' then '_' else c))

/-- The per-line body of `_find_cobol_boundaries`: divisions are tried
first, then sections (only if no division matched), then paragraphs (only
if neither matched); at most one boundary is recorded per line.
The boundary map of the source is `fun i => (lines.get? i).bind
classifyCobolLine`, which is how the chunking loop consumes it. -/
def classifyCobolLine (line : String) : Option CobolBoundary :=
  let u := normCobolLine line
  if matchesAnyDivision u then
    some { btype := extractDivisionName u, level := BLevel.division }
  else if matchesAnySection u then
    some { btype := extractSectionName u, level := BLevel.section }
  else if matchesAnyParagraph u then
    some { btype := extractParagraphName u, level := BLevel.paragraph }
  else none

/-- Configuration of `CobolChunker`: the token budget and the (opaque,
external) tiktoken encoder, abstracted as a cost function. -/
structure CobolCfg where
  maxTokens : Nat
  enc : String → Nat

/-- The `file_info` dict as used by the COBOL chunker (`name`, `path`). -/
structure FileInfo where
  name : String
  path : String
deriving DecidableEq, Repr

/-- A chunk dict produced by `_create_cobol_chunk`.  `chunkLines` records
the `lines` argument the chunk was built from (the source stores only
`len(lines)`; the full list is kept so coverage claims can be stated). -/
structure CChunk where
  content : String
  chunkLines : List String
  tokens : Nat
  chunkNumber : Nat
  sectionLabel : String
  filePath : String
deriving DecidableEq, Repr

/-- `_create_cobol_chunk`. -/
def createCobolChunk (c : CobolCfg) (lines : List String) (fi : FileInfo)
    (chunkNumber : Nat) (sectionLabel : String) : CChunk :=
  let content := "=== COBOL FILE: " ++ fi.name ++ " - CHUNK " ++ toString chunkNumber
    ++ " (" ++ sectionLabel ++ ") ===\n\n" ++ String.intercalate "\n" lines
  { content := content
    chunkLines := lines
    tokens := c.enc content
    chunkNumber := chunkNumber
    sectionLabel := sectionLabel
    filePath := fi.path ++ " (Chunk " ++ toString chunkNumber ++ ")" }

/-- `_get_context_overlap`: for division/section boundaries the last 3
lines (all of them when there are at most 3), otherwise nothing. -/
def getContextOverlap (chunkLines : List String) (b : CobolBoundary) : List String :=
  if b.level = BLevel.division ∨ b.level = BLevel.section then
    if chunkLines.length > 3 then takeLastN 3 chunkLines else chunkLines
  else []

/-- The backward search of `_find_safe_split_point`:
`for i in range(len(lines)-1, max(0, len(lines)-50), -1)` returns the
first (largest) `i` in `(max(0, len-50), len-1]` whose line matches a
paragraph pattern. -/
def findSplitSearch (lines : List String) (lo : Nat) : Nat → Option Nat
  | 0 => none
  | i + 1 =>
    if i + 1 ≤ lo then none
    else if matchesAnyParagraph (normCobolLine (((lines.get? (i + 1))).getD "")) then
      some (i + 1)
    else findSplitSearch lines lo i

/-- `_find_safe_split_point`: the backward paragraph search, falling back
to `int(len(lines) * 0.8)`. -/
def findSafeSplitPoint (lines : List String) : Nat :=
  match findSplitSearch lines (lines.length - 50) (lines.length - 1) with
  | some i => i
  | none => lines.length * 8 / 10

/-- The lines kept after an emergency split:
`remaining_lines = current_chunk_lines[split_point-5:]` (a Python slice —
the index may be negative). -/
def emergencyRemainder (cur : List String) : List String :=
  pySliceFrom cur ((findSafeSplitPoint cur : Int) - 5)

/-- Loop state of `_chunk_by_cobol_structure`. -/
structure CState where
  chunks : List CChunk
  cur : List String
  curTok : Nat
  chunkNo : Nat
  curSection : String
deriving Repr

/-- Appending the line and the emergency-split check: the tail of each
loop iteration of `_chunk_by_cobol_structure` (lines 126-150 of the
source), reached unless the boundary branch hit `continue`. -/
def cobolAppendStep (c : CobolCfg) (fi : FileInfo) (s : CState) (line : String) : CState :=
  let cur := s.cur ++ [line]
  let tok := s.curTok + c.enc line
  if 10 * tok > 9 * c.maxTokens then
    let sp := findSafeSplitPoint cur
    if 0 < sp then
      let ch := createCobolChunk c (cur.take sp) fi s.chunkNo s.curSection
      let rem := emergencyRemainder cur
      { chunks := s.chunks ++ [ch]
        cur := rem
        curTok := c.enc (String.intercalate "\n" rem)
        chunkNo := s.chunkNo + 1
        curSection := s.curSection }
    else { s with cur := cur, curTok := tok }
  else { s with cur := cur, curTok := tok }

/-- One iteration of the `for i, line in enumerate(lines)` loop of
`_chunk_by_cobol_structure`.  The boundary map entry for the current index
is exactly `classifyCobolLine line`; when the boundary branch emits a
chunk it `continue`s, skipping the append and emergency-split code. -/
def cobolStep (c : CobolCfg) (fi : FileInfo) (s : CState) (line : String) : CState :=
  match classifyCobolLine line with
  | some b =>
    let s1 := { s with curSection := b.btype }
    if 10 * s1.curTok > 7 * c.maxTokens ∧ s1.cur ≠ [] ∧
        (b.level = BLevel.division ∨ b.level = BLevel.section) then
      let ch := createCobolChunk c s1.cur fi s1.chunkNo s1.curSection
      let ov := getContextOverlap s1.cur b
      let cur := ov ++ [line]
      { chunks := s1.chunks ++ [ch]
        cur := cur
        curTok := c.enc (String.intercalate "\n" cur)
        chunkNo := s1.chunkNo + 1
        curSection := s1.curSection }
    else cobolAppendStep c fi s1 line
  | none => cobolAppendStep c fi s line

/-- `_chunk_by_cobol_structure`. -/
def chunkByCobolStructure (c : CobolCfg) (lines : List String) (fi : FileInfo) :
    List CChunk :=
  let s := lines.foldl (cobolStep c fi)
    { chunks := [], cur := [], curTok := 0, chunkNo := 1, curSection := "UNKNOWN" }
  if s.cur ≠ [] then
    s.chunks ++ [createCobolChunk c s.cur fi s.chunkNo s.curSection]
  else s.chunks

/-- Result of `chunk_cobol_file` (the source returns a loosely-typed dict
with a `'strategy'` tag; a tagged union is the faithful typed rendering).
For `single`, `totalTokens` is the token count of the *original* content,
as in `_create_single_cobol_chunk`. -/
inductive CobolResult where
  | single (content : String) (files : List FileInfo) (totalTokens : Nat)
  | structured (chunks : List CChunk) (totalChunks : Nat) (totalFiles : Nat)
deriving DecidableEq, Repr

/-- `chunk_cobol_file`. -/
def chunkCobolFile (c : CobolCfg) (fileContent : String) (fi : FileInfo) : CobolResult :=
  let lines := pySplitlines fileContent
  let totalTokens := c.enc fileContent
  if totalTokens ≤ c.maxTokens then
    .single ("=== COBOL FILE: " ++ fi.name ++ " ===\n\n" ++ fileContent) [fi]
      (c.enc fileContent)
  else
    let chunks := chunkByCobolStructure c lines fi
    .structured chunks chunks.length 1

/-! ## `src/backend/utils/code_chunker.py` -/

/-- A processed-file record as supplied by the file processor:
`{name, path, content, language, lines, size}`. -/
structure OFile where
  name : String
  path : String
  content : String
  language : String
  lines : Nat
  size : Nat
deriving DecidableEq, Repr

/-- Normalisation applied by `_find_logical_boundaries`:
`line.strip()` matched case-insensitively; modelled by upper-casing both
the line and the patterns' literals. -/
def normCodeLine (line : String) : String :=
  strUpperAscii (trimAscii line)

/-- `self.function_patterns` of `CodeChunker.__init__` (literals
upper-cased to implement `re.IGNORECASE`). -/
def functionPatterns : String → List (List Mtch)
  | "python" =>
    [ [mLit "DEF", mWs1, mWord1, mWs0, mCh '('],
      [mLit "CLASS", mWs1, mWord1, mWs0, mOne (fun c => c = '(' || c = ':')],
      [mLit "ASYNC", mWs1, mLit "DEF", mWs1, mWord1, mWs0, mCh '('] ]
  | "javascript" =>
    [ [mLit "FUNCTION", mWs1, mWord1, mWs0, mCh '('],
      [mLit "CONST", mWs1, mWord1, mWs0, mCh '=', mWs0, mCh '('],
      [mLit "CLASS", mWs1, mWord1, mWs0, mCh '\x7b'],
      [mWord1, mWs0, mCh ':', mWs0, mLit "FUNCTION", mWs0, mCh '('],
      [mWs0, mWord1, mWs0, mCh '(', mMany (fun c => c ≠ ')'), mCh ')', mWs0,
        mLit "=>", mWs0, mCh '\x7b'] ]
  | "typescript" =>
    [ [mLit "FUNCTION", mWs1, mWord1, mWs0, mCh '('],
      [mLit "CONST", mWs1, mWord1, mWs0, mCh '=', mWs0, mCh '('],
      [mLit "CLASS", mWs1, mWord1, mWs0, mCh '\x7b'],
      [mLit "INTERFACE", mWs1, mWord1, mWs0, mCh '\x7b'],
      [mLit "TYPE", mWs1, mWord1, mWs0, mCh '='] ]
  | "java" =>
    [ [mLit "PUBLIC", mWs1, mLit "CLASS", mWs1, mWord1],
      [mLit "PRIVATE", mWs1, mLit "CLASS", mWs1, mWord1],
      [mLit "PROTECTED", mWs1, mLit "CLASS", mWs1, mWord1],
      [mLit "PUBLIC", mWs1, mWord1, mWs1, mWord1, mWs0, mCh '('],
      [mLit "PRIVATE", mWs1, mWord1, mWs1, mWord1, mWs0, mCh '('],
      [mLit "PROTECTED", mWs1, mWord1, mWs1, mWord1, mWs0, mCh '('] ]
  | "cobol" =>
    [ [mWs0, mDig1, mWs1, mLit "PROCEDURE", mWs1, mLit "DIVISION"],
      [mWs0, mDig1, mWs1, mLit "WORKING-STORAGE", mWs1, mLit "SECTION"],
      [mWs0, mDig1, mWs1, mLit "DATA", mWs1, mLit "DIVISION"],
      [mWs0, mDig1, mWs1, mLit "IDENTIFICATION", mWs1, mLit "DIVISION"],
      [mWs0, mDig1, mWs1, mWord1, mCh '-', mLit "SECTION"],
      [mWs0, mDig1, mWs1, mWord1, mWs1, mLit "SECTION"] ]
  | "cpp" =>
    [ [mLit "CLASS", mWs1, mWord1, mWs0, mCh '\x7b'],
      [mLit "STRUCT", mWs1, mWord1, mWs0, mCh '\x7b'],
      [mWord1, mLit "::", mWord1, mWs0, mCh '('],
      [mWord1, mWs1, mWord1, mWs0, mCh '('] ]
  | "c" =>
    [ [mWord1, mWs1, mWord1, mWs0, mCh '('],
      [mLit "STRUCT", mWs1, mWord1, mWs0, mCh '\x7b'],
      [mLit "TYPEDEF", mWs1, mLit "STRUCT", mWs0, mCh '\x7b'] ]
  | _ => []

/-- `CodeChunker._find_logical_boundaries`. -/
def findLogicalBoundaries (lines : List String) (language : String) : List Nat :=
  lines.enum.filterMap (fun p =>
    if (functionPatterns language).any (fun pat => runMs pat (normCodeLine p.2)) then
      some p.1
    else none)

/-- Configuration of `CodeChunker` (token budget + abstracted encoder). -/
structure CodeCfg where
  maxTokens : Nat
  enc : String → Nat

/-- A chunk dict of `CodeChunker`: `{content, files, tokens}`. -/
structure KChunk where
  content : String
  files : List String
  tokens : Nat
deriving DecidableEq, Repr

/-- The per-file banner prepended in `_create_chunked_content` /
`_estimate_total_tokens`-style concatenations. -/
def fileBanner (f : OFile) : String :=
  "\n\n--- File: " ++ f.path ++ " (" ++ f.language ++ ") ---\n" ++ f.content

/-- `CodeChunker._chunk_by_lines` (fallback): windows of 1000 lines with
stride `1000 - 50`. -/
def chunkByLinesGo (c : CodeCfg) (f : OFile) (lines : List String) (i : Nat) :
    List KChunk :=
  if h : i < lines.length then
    let chunkLines := (lines.drop i).take 1000
    let label := f.path ++ " (Lines " ++ toString (i + 1) ++ "-"
      ++ toString (i + chunkLines.length) ++ ")"
    let content := "--- File: " ++ label ++ " ---\n" ++ String.intercalate "\n" chunkLines
    { content := content, files := [label], tokens := c.enc content }
      :: chunkByLinesGo c f lines (i + 950)
  else []
termination_by lines.length - i
decreasing_by simp_wf; omega

/-- `CodeChunker._chunk_by_lines`. -/
def chunkByLines (c : CodeCfg) (f : OFile) : List KChunk :=
  chunkByLinesGo c f (pySplitlines f.content) 0

/-- Loop state of `CodeChunker._chunk_large_file`. -/
structure KLineState where
  chunks : List KChunk
  cur : List String
  curTok : Nat
deriving Repr

/-- One iteration of the boundary-splitting loop of `_chunk_large_file`
(`chunk_size = max_tokens // 2`; split at a boundary once the running
total exceeds `chunk_size * 0.7`, keeping a 5-line overlap). -/
def largeFileStep (c : CodeCfg) (f : OFile) (bs : List Nat) (s : KLineState)
    (p : Nat × String) : KLineState :=
  let chunkSize := c.maxTokens / 2
  let lineTok := c.enc p.2
  if p.1 ∈ bs ∧ 10 * s.curTok > 7 * chunkSize ∧ s.cur ≠ [] then
    let label := f.path ++ " (Part " ++ toString (s.chunks.length + 1) ++ ")"
    let content := "--- File: " ++ label ++ " ---\n" ++ String.intercalate "\n" s.cur
    let ch : KChunk := { content := content, files := [label], tokens := s.curTok }
    let ov := if s.cur.length > 5 then takeLastN 5 s.cur else s.cur
    let cur := ov ++ [p.2]
    { chunks := s.chunks ++ [ch]
      cur := cur
      curTok := c.enc (String.intercalate "\n" cur) }
  else
    { s with cur := s.cur ++ [p.2], curTok := s.curTok + lineTok }

/-- `CodeChunker._chunk_large_file`. -/
def chunkLargeFile (c : CodeCfg) (f : OFile) : List KChunk :=
  let lines := pySplitlines f.content
  let bs := findLogicalBoundaries lines f.language
  if bs = [] then chunkByLines c f
  else
    let s := lines.enum.foldl (largeFileStep c f bs) { chunks := [], cur := [], curTok := 0 }
    if s.cur ≠ [] then
      let label := f.path ++ " (Part " ++ toString (s.chunks.length + 1) ++ ")"
      let content := "--- File: " ++ label ++ " ---\n" ++ String.intercalate "\n" s.cur
      s.chunks ++ [{ content := content, files := [label], tokens := s.curTok }]
    else s.chunks

/-- The importance key of `CodeChunker._sort_files_by_importance`,
scaled by 100 so it stays in `Nat`: the source's score is
`100·[main-ish] + 50·[config-ish] + min(lines/100, 50) + 25·[priority
language]` (the size bonus in Python float arithmetic); multiplying by
100 gives this exact integer, and scaling is monotone, so all score
comparisons are preserved. -/
def importanceScoreK (f : OFile) : Nat :=
  (if ["main", "index", "app", "server"].any
      (fun kw => strContains (strLowerAscii f.name) kw) then 10000 else 0)
  + (if ["config", "settings", "package"].any
      (fun kw => strContains (strLowerAscii f.name) kw) then 5000 else 0)
  + min f.lines 5000
  + (if f.language ∈ ["python", "javascript", "java", "cobol"] then 2500 else 0)

/-- `CodeChunker._sort_files_by_importance`: Python's `sorted` with
`reverse=True` is the *stable* descending sort by the score; a stable
insertion sort with the non-strict "comes no later than" relation
produces the identical ordering. -/
def sortFilesByImportance (files : List OFile) : List OFile :=
  List.insertionSort (fun a b => importanceScoreK b ≤ importanceScoreK a) files

/-- Loop state of `_create_chunked_content`. -/
structure KAccState where
  chunks : List KChunk
  curContent : String
  curFiles : List String
  curTok : Nat
deriving Repr

/-- One iteration of the file-accumulation loop of
`_create_chunked_content`. -/
def chunkedContentStep (c : CodeCfg) (s : KAccState) (f : OFile) : KAccState :=
  let fc := fileBanner f
  let ft := c.enc fc
  if 10 * ft > 8 * c.maxTokens then
    let flushed :=
      if s.curContent ≠ "" then
        s.chunks ++ [{ content := s.curContent, files := s.curFiles, tokens := s.curTok }]
      else s.chunks
    { chunks := flushed ++ chunkLargeFile c f, curContent := "", curFiles := [], curTok := 0 }
  else if 10 * (s.curTok + ft) > 9 * c.maxTokens then
    let flushed :=
      if s.curContent ≠ "" then
        s.chunks ++ [{ content := s.curContent, files := s.curFiles, tokens := s.curTok }]
      else s.chunks
    { chunks := flushed, curContent := fc, curFiles := [f.path], curTok := ft }
  else
    { s with curContent := s.curContent ++ fc
             curFiles := s.curFiles ++ [f.path]
             curTok := s.curTok + ft }

/-- Result of `_create_chunked_content` (`'strategy': 'multi_chunk'`). -/
structure KMultiResult where
  chunks : List KChunk
  totalChunks : Nat
  totalFiles : Nat
deriving Repr

/-- `CodeChunker._create_chunked_content`. -/
def createChunkedContent (c : CodeCfg) (files : List OFile) : KMultiResult :=
  let s := (sortFilesByImportance files).foldl (chunkedContentStep c)
    { chunks := [], curContent := "", curFiles := [], curTok := 0 }
  let chunks :=
    if s.curContent ≠ "" then
      s.chunks ++ [{ content := s.curContent, files := s.curFiles, tokens := s.curTok }]
    else s.chunks
  { chunks := chunks, totalChunks := chunks.length, totalFiles := files.length }

/-! ## `src/backend/utils/optimized_chunker.py` -/

/-- `self.importance_weights` of `OptimizedChunker.__init__`, in insertion
order (Python dict iteration order). -/
def importanceWeights : List (String × Nat) :=
  [("main", 100), ("index", 90), ("app", 85), ("server", 80),
   ("config", 70), ("settings", 65), ("package", 60),
   ("model", 75), ("controller", 75), ("service", 75),
   ("component", 70), ("util", 50), ("helper", 50),
   ("test", 30), ("spec", 30), ("readme", 20)]

/-- `self.language_priorities` of `OptimizedChunker.__init__`. -/
def languagePriorities : List (String × Nat) :=
  [("cobol", 100), ("python", 90), ("javascript", 85), ("typescript", 85),
   ("java", 80), ("cpp", 75), ("c", 75), ("go", 70),
   ("json", 40), ("yaml", 40), ("xml", 35), ("txt", 20)]

/-- The name-keyword loop of `_calculate_file_importance`: the weight of
the first table entry whose keyword is a substring of the (lower-cased)
file name, 0 when none matches (the loop `break`s at the first match). -/
def keywordImportance (fileName : String) : List (String × Nat) → Nat
  | [] => 0
  | (kw, w) :: rest =>
    if strContains fileName kw then w else keywordImportance fileName rest

/-- `OptimizedChunker._calculate_file_importance`, scaled by 50 so it
stays in `Nat`: the source computes `keyword weight + language priority +
min(lines/50, 30)` (the last addend in Python float arithmetic);
multiplying by 50 gives this exact integer, and scaling is monotone, so
all score comparisons are preserved. -/
def calculateFileImportance (f : OFile) : Nat :=
  50 * keywordImportance (strLowerAscii f.name) importanceWeights
    + 50 * (languagePriorities.lookup (strLowerAscii f.language)).getD 30
    + min f.lines 1500

/-- Stable descending sort by `_calculate_file_importance`
(Python `sorted(..., key=..., reverse=True)`). -/
def sortByImportanceDesc (files : List OFile) : List OFile :=
  List.insertionSort
    (fun a b => calculateFileImportance b ≤ calculateFileImportance a) files

/-- The `groups` dict of `_group_files_by_type`. -/
structure FileGroups where
  core : List OFile
  businessLogic : List OFile
  configuration : List OFile
  utilities : List OFile
  tests : List OFile
  documentation : List OFile
deriving DecidableEq, Repr

def anyContains (hay : String) (needles : List String) : Bool :=
  needles.any (fun kw => strContains hay kw)

/-- The categorisation cascade of `_group_files_by_type` (one file). -/
def addToGroup (g : FileGroups) (f : OFile) : FileGroups :=
  let fileName := strLowerAscii f.name
  let filePath := strLowerAscii f.path
  if anyContains fileName ["main", "index", "app", "server"] then
    { g with core := g.core ++ [f] }
  else if anyContains filePath ["model", "service", "controller", "business", "logic"] then
    { g with businessLogic := g.businessLogic ++ [f] }
  else if anyContains fileName ["config", "settings", "package", ".env"] then
    { g with configuration := g.configuration ++ [f] }
  else if anyContains filePath ["test", "spec", "__test__"] then
    { g with tests := g.tests ++ [f] }
  else if anyContains fileName ["readme", "doc", "guide"] then
    { g with documentation := g.documentation ++ [f] }
  else { g with utilities := g.utilities ++ [f] }

/-- `OptimizedChunker._group_files_by_type`: categorise every file, then
sort each group by importance, descending. -/
def groupFilesByType (files : List OFile) : FileGroups :=
  let g := files.foldl addToGroup
    { core := [], businessLogic := [], configuration := [], utilities := []
      tests := [], documentation := [] }
  { core := sortByImportanceDesc g.core
    businessLogic := sortByImportanceDesc g.businessLogic
    configuration := sortByImportanceDesc g.configuration
    utilities := sortByImportanceDesc g.utilities
    tests := sortByImportanceDesc g.tests
    documentation := sortByImportanceDesc g.documentation }

/-- Configuration of `OptimizedChunker` (budget + abstracted encoder). -/
structure OptCfg where
  maxTokens : Nat
  enc : String → Nat

/-- File reference recorded in a smart chunk's `files` metadata
(`_create_group_chunk` additionally records the importance score and
`_create_sub_chunk` omits it; the score is recomputable from the file and
not kept here). -/
structure GFileRef where
  path : String
  language : String
  linesCount : Nat
deriving DecidableEq, Repr

/-- A chunk dict of `OptimizedChunker`:
`{content, files, group, tokens, file_count}`. -/
structure GChunk where
  content : String
  files : List GFileRef
  group : String
  tokens : Nat
  fileCount : Nat
deriving DecidableEq, Repr

/-- The per-file block appended by the group/sub-chunk builders. -/
def optFileBlock (f : OFile) : String :=
  "\n--- File: " ++ f.path ++ " (" ++ f.language ++ ") ---\n" ++ f.content ++ "\n\n"

/-- `OptimizedChunker._create_group_chunk`. -/
def createGroupChunk (c : OptCfg) (files : List OFile) (groupName : String) : GChunk :=
  let content := "=== " ++ strUpperAscii groupName ++ " FILES GROUP ===\n\n"
    ++ String.join (files.map optFileBlock)
  { content := content
    files := files.map (fun f => { path := f.path, language := f.language, linesCount := f.lines })
    group := groupName
    tokens := c.enc content
    fileCount := files.length }

/-- `OptimizedChunker._create_sub_chunk`. -/
def createSubChunk (c : OptCfg) (files : List OFile) (groupName : String)
    (chunkNumber : Nat) : GChunk :=
  let content := "=== " ++ strUpperAscii groupName ++ " GROUP - PART " ++ toString chunkNumber
    ++ " ===\n\n" ++ String.join (files.map optFileBlock)
  { content := content
    files := files.map (fun f => { path := f.path, language := f.language, linesCount := f.lines })
    group := groupName ++ "_part_" ++ toString chunkNumber
    tokens := c.enc content
    fileCount := files.length }

/-- The pattern table of `OptimizedChunker._find_logical_boundaries`
(distinct from the `CodeChunker` one), with the `patterns.get(language,
patterns.get('python'))` default. -/
def optBoundaryPatterns (language : String) : List (List Mtch) :=
  let pythonPats : List (List Mtch) :=
    [ [mLit "DEF", mWs1, mWord1],
      [mLit "CLASS", mWs1, mWord1],
      [mLit "ASYNC", mWs1, mLit "DEF", mWs1, mWord1] ]
  match language with
  | "cobol" =>
    [ [mWs0, mDig1, mWs1, mLit "PROCEDURE", mWs1, mLit "DIVISION"],
      [mWs0, mDig1, mWs1, mWord1, mCh '-', mLit "SECTION"] ]
  | "python" => pythonPats
  | "javascript" =>
    [ [mLit "FUNCTION", mWs1, mWord1],
      [mLit "CLASS", mWs1, mWord1],
      [mLit "CONST", mWs1, mWord1, mWs0, mCh '='] ]
  | "java" =>
    [ [mLit "PUBLIC", mWs1, mLit "CLASS", mWs1, mWord1],
      [mLit "PUBLIC", mWs1, mWord1, mWs1, mWord1, mWs0, mCh '('] ]
  | _ => pythonPats

/-- `OptimizedChunker._find_logical_boundaries` (note: the dispatch is on
`language.lower()`). -/
def findLogicalBoundariesOpt (lines : List String) (language : String) : List Nat :=
  lines.enum.filterMap (fun p =>
    if (optBoundaryPatterns (strLowerAscii language)).any (fun pat => runMs pat (normCodeLine p.2)) then
      some p.1
    else none)

/-- `OptimizedChunker._simple_split_large_file`: plain windows of 2000
lines, no overlap. -/
def simpleSplitGo (c : OptCfg) (f : OFile) (groupName : String)
    (lines : List String) (i : Nat) : List GChunk :=
  if h : i < lines.length then
    let chunkLines := (lines.drop i).take 2000
    let label := f.path ++ " (Lines " ++ toString (i + 1) ++ "-"
      ++ toString (i + chunkLines.length) ++ ")"
    let content := "=== " ++ strUpperAscii groupName ++ " - " ++ label ++ " ===\n"
      ++ String.intercalate "\n" chunkLines
    { content := content
      files := [{ path := label, language := f.language, linesCount := chunkLines.length }]
      group := groupName ++ "_large_file"
      tokens := c.enc content
      fileCount := 1 } :: simpleSplitGo c f groupName lines (i + 2000)
  else []
termination_by lines.length - i
decreasing_by simp_wf; omega

/-- `OptimizedChunker._simple_split_large_file` (`start_chunk_number` is
accepted but never used by the source's body). -/
def simpleSplitLargeFile (c : OptCfg) (f : OFile) (groupName : String) : List GChunk :=
  simpleSplitGo c f groupName (pySplitlines f.content) 0

/-- Loop state of `_handle_large_file`. -/
structure HLFState where
  chunks : List GChunk
  curLines : List String
  curTok : Nat
  chunkNo : Nat
deriving Repr

/-- One iteration of the boundary loop of `_handle_large_file`
(split at a boundary once the running total exceeds `max_tokens * 0.5`;
the new chunk restarts at the boundary line, with no overlap). -/
def handleLargeStep (c : OptCfg) (f : OFile) (groupName : String) (startNo : Nat)
    (bs : List Nat) (s : HLFState) (p : Nat × String) : HLFState :=
  let lineTok := c.enc p.2
  if p.1 ∈ bs ∧ 10 * s.curTok > 5 * c.maxTokens ∧ s.curLines ≠ [] then
    let partNo := s.chunkNo - startNo + 1
    let label := f.path ++ " (Part " ++ toString partNo ++ ")"
    let content := "=== " ++ strUpperAscii groupName ++ " - " ++ f.path ++ " (Part "
      ++ toString partNo ++ ") ===\n" ++ String.intercalate "\n" s.curLines
    let ch : GChunk :=
      { content := content
        files := [{ path := label, language := f.language, linesCount := s.curLines.length }]
        group := groupName ++ "_large_file"
        tokens := s.curTok
        fileCount := 1 }
    { chunks := s.chunks ++ [ch], curLines := [p.2], curTok := lineTok
      chunkNo := s.chunkNo + 1 }
  else
    { s with curLines := s.curLines ++ [p.2], curTok := s.curTok + lineTok }

/-- `OptimizedChunker._handle_large_file`. -/
def handleLargeFile (c : OptCfg) (f : OFile) (groupName : String)
    (startChunkNumber : Nat) : List GChunk :=
  let lines := pySplitlines f.content
  let bs := findLogicalBoundariesOpt lines f.language
  if bs.isEmpty || bs.length < 2 then simpleSplitLargeFile c f groupName
  else
    let s := lines.enum.foldl (handleLargeStep c f groupName startChunkNumber bs)
      { chunks := [], curLines := [], curTok := 0, chunkNo := startChunkNumber }
    if s.curLines ≠ [] then
      let partNo := s.chunkNo - startChunkNumber + 1
      let label := f.path ++ " (Part " ++ toString partNo ++ ")"
      let content := "=== " ++ strUpperAscii groupName ++ " - " ++ f.path ++ " (Part "
        ++ toString partNo ++ ") ===\n" ++ String.intercalate "\n" s.curLines
      s.chunks ++
        [{ content := content
           files := [{ path := label, language := f.language, linesCount := s.curLines.length }]
           group := groupName ++ "_large_file"
           tokens := s.curTok
           fileCount := 1 }]
    else s.chunks

/-- Loop state of `_split_group_intelligently`. -/
structure SGState where
  chunks : List GChunk
  curFiles : List OFile
  curTok : Nat
  chunkNo : Nat
deriving Repr

/-- One iteration of the file loop of `_split_group_intelligently`. -/
def splitGroupStep (c : OptCfg) (groupName : String) (s : SGState) (f : OFile) : SGState :=
  let ft := c.enc f.content
  if 10 * ft > 7 * c.maxTokens then
    let s1 :=
      if s.curFiles ≠ [] then
        { s with chunks := s.chunks ++ [createSubChunk c s.curFiles groupName s.chunkNo]
                 curFiles := [], curTok := 0, chunkNo := s.chunkNo + 1 }
      else s
    let large := handleLargeFile c f groupName s1.chunkNo
    { s1 with chunks := s1.chunks ++ large, chunkNo := s1.chunkNo + large.length }
  else if 10 * (s.curTok + ft) > 8 * c.maxTokens then
    let s1 :=
      if s.curFiles ≠ [] then
        { s with chunks := s.chunks ++ [createSubChunk c s.curFiles groupName s.chunkNo]
                 chunkNo := s.chunkNo + 1 }
      else s
    { s1 with curFiles := [f], curTok := ft }
  else
    { s with curFiles := s.curFiles ++ [f], curTok := s.curTok + ft }

/-- `OptimizedChunker._split_group_intelligently`. -/
def splitGroupIntelligently (c : OptCfg) (files : List OFile) (groupName : String) :
    List GChunk :=
  let s := files.foldl (splitGroupStep c groupName)
    { chunks := [], curFiles := [], curTok := 0, chunkNo := 1 }
  if s.curFiles ≠ [] then
    s.chunks ++ [createSubChunk c s.curFiles groupName s.chunkNo]
  else s.chunks

/-- `OptimizedChunker._estimate_total_tokens` (identical to the
`CodeChunker` one). -/
def estimateTotalTokensOpt (c : OptCfg) (files : List OFile) : Nat :=
  c.enc (String.join (files.map (fun f =>
    "\n\n--- " ++ f.path ++ " ---\n" ++ f.content)))

/-- Result of `OptimizedChunker.prepare_code_for_analysis` — the source
returns loosely-typed dicts distinguished by a `'strategy'` string
(`single_chunk` / `smart_chunk`) or the COBOL chunker's result; a tagged
union is the faithful typed rendering.  `singleChunk` keeps the full file
records its summary is derived from. -/
inductive PrepResult where
  | singleChunk (content : String) (files : List OFile) (totalTokens : Nat)
  | smartChunk (chunks : List GChunk) (totalChunks : Nat) (totalFiles : Nat)
      (groupingStrategy : String)
  | cobol (r : CobolResult)
deriving DecidableEq, Repr

/-- `OptimizedChunker._create_single_chunk` (files sorted by importance,
banner `=== COMPLETE REPOSITORY ANALYSIS ===`). -/
def createSingleChunkOpt (c : OptCfg) (files : List OFile) : PrepResult :=
  let sortedFiles := sortByImportanceDesc files
  let content := "=== COMPLETE REPOSITORY ANALYSIS ===\n\n"
    ++ String.join (sortedFiles.map optFileBlock)
  .singleChunk content sortedFiles (c.enc content)

/-- The `(group_name, files)` sequence of the `groups` dict in insertion
order, as iterated by `_create_smart_chunks`. -/
def groupsInOrder (g : FileGroups) : List (String × List OFile) :=
  [("core", g.core), ("business_logic", g.businessLogic),
   ("configuration", g.configuration), ("utilities", g.utilities),
   ("tests", g.tests), ("documentation", g.documentation)]

/-- `OptimizedChunker._create_smart_chunks`. -/
def createSmartChunks (c : OptCfg) (files : List OFile) : PrepResult :=
  let groups := groupFilesByType files
  let chunks := (groupsInOrder groups).foldl (fun acc gp =>
    if gp.2 = [] then acc
    else
      let groupTokens := (gp.2.map (fun f => c.enc f.content)).sum
      if 10 * groupTokens ≤ 8 * c.maxTokens then
        acc ++ [createGroupChunk c gp.2 gp.1]
      else
        acc ++ splitGroupIntelligently c gp.2 gp.1) []
  .smartChunk chunks chunks.length files.length "type_based"

/-- `OptimizedChunker.prepare_code_for_analysis`: a first file tagged
`cobol` routes the *first file's content alone* to `CobolChunker`
(constructed with the same budget); otherwise single-chunk when the total
estimate fits the budget, else smart chunking. -/
def prepareCodeForAnalysisOpt (c : OptCfg) (files : List OFile) : PrepResult :=
  match files with
  | f :: _ =>
    if strLowerAscii f.language = "cobol" then
      .cobol (chunkCobolFile { maxTokens := c.maxTokens, enc := c.enc } f.content
        { name := f.name, path := f.path })
    else
      let total := estimateTotalTokensOpt c files
      if total ≤ c.maxTokens then createSingleChunkOpt c files
      else createSmartChunks c files
  | [] =>
    let total := estimateTotalTokensOpt c []
    if total ≤ c.maxTokens then createSingleChunkOpt c []
    else createSmartChunks c []

/-! ## `src/backend/utils/analysis_cache.py`

The cache directory is modelled as an association list from cache key to
entry; a file's modification time (`st_mtime`, what `_is_cache_valid`
inspects) is the `mtime` field, set to the current time on every write.
`hashlib.sha256` is external and abstracted as `hashFn`; `datetime.now()`
is passed explicitly as `now` (`Nat` seconds). -/

/-- The metadata part of `file_info` that `_generate_cache_key` reads. -/
structure FileMeta where
  name : String
  language : String
deriving DecidableEq, Repr

/-- Configuration of `AnalysisCache`: TTL in hours
(`cache_duration = timedelta(hours=cache_duration_hours)`) and the
abstracted cryptographic hash. -/
structure CacheCfg where
  durationHours : Nat
  hashFn : String → String

/-- `cache_duration` in seconds. -/
def CacheCfg.durationSecs (c : CacheCfg) : Nat := c.durationHours * 3600

/-- One cache file: `{timestamp, file_info, content_hash,
analysis_response}` plus the file's mtime (which freshness checks use).
The ISO `timestamp` string always denotes the same instant as `mtime` and
is represented by it. -/
structure CacheEntry where
  mtime : Nat
  fileInfo : FileMeta
  contentHash : String
  analysisResponse : String
deriving DecidableEq, Repr

/-- The cache directory: one `<key>.json` file per fingerprint. -/
structure CacheState where
  entries : List (String × CacheEntry)
deriving DecidableEq, Repr

/-- `AnalysisCache._generate_cache_key`:
`sha256(f"{content}_{name}_{language}")`. -/
def generateCacheKey (c : CacheCfg) (content : String) (fi : FileMeta) : String :=
  c.hashFn (content ++ "_" ++ fi.name ++ "_" ++ fi.language)

/-- `AnalysisCache._is_cache_valid` for an existing entry:
`now - mtime < cache_duration`. -/
def entryFresh (c : CacheCfg) (now : Nat) (e : CacheEntry) : Bool :=
  now - e.mtime < c.durationSecs

/-- `AnalysisCache.get_cached_analysis`: returns the stored response on a
fresh hit; on a stale hit deletes the entry (the expired-file cleanup) and
misses; on absence just misses.  Returns the result together with the
possibly-updated directory state. -/
def getCachedAnalysis (c : CacheCfg) (now : Nat) (content : String) (fi : FileMeta)
    (s : CacheState) : Option String × CacheState :=
  let key := generateCacheKey c content fi
  match s.entries.lookup key with
  | some e =>
    if entryFresh c now e then (some e.analysisResponse, s)
    else (none, { entries := s.entries.filter (fun p => p.1 ≠ key) })
  | none => (none, s)

/-- Writing `<key>.json`: overwrite in place when the file exists,
create it otherwise. -/
def putEntry (entries : List (String × CacheEntry)) (key : String) (e : CacheEntry) :
    List (String × CacheEntry) :=
  if (entries.lookup key).isSome then
    entries.map (fun p => if p.1 = key then (key, e) else p)
  else entries ++ [(key, e)]

/-- `AnalysisCache.save_analysis`. -/
def saveAnalysis (c : CacheCfg) (now : Nat) (content : String) (fi : FileMeta)
    (analysisResponse : String) (s : CacheState) : CacheState :=
  let key := generateCacheKey c content fi
  { entries := putEntry s.entries key
      { mtime := now
        fileInfo := fi
        contentHash := c.hashFn content
        analysisResponse := analysisResponse } }

/-- `AnalysisCache.cleanup_expired_cache`: unlink every expired cache
file; returns the removed count and the new state. -/
def cleanupExpiredCache (c : CacheCfg) (now : Nat) (s : CacheState) :
    Nat × CacheState :=
  ((s.entries.filter (fun p => ¬ entryFresh c now p.2)).length,
   { entries := s.entries.filter (fun p => entryFresh c now p.2) })

/-- `AnalysisCache.clear_cache`: unlink everything, count removed. -/
def clearCache (s : CacheState) : Nat × CacheState :=
  (s.entries.length, { entries := [] })

/-! ## `src/backend/services/enhanced_analysis_service.py`

Only the pure in-repo logic is embedded: the external OpenAI calls are
abstracted as functions passed in (`synth` for `_quick_synthesis`, the
per-group analysis outcomes as an `Except` list — `asyncio.gather(...,
return_exceptions=True)` turns per-task exceptions into values), and the
TF-IDF/cosine computation of sklearn as a `vectorize` function producing
the similarity matrix or failing. -/

/-- The exception-filtering loop of `_analyze_multi_chunk_parallel`:
failed group analyses are logged and dropped, valid ones kept in order. -/
def filterValidAnalyses (results : List (Except String String)) : List String :=
  results.foldl (fun acc r =>
    match r with
    | .error _ => acc
    | .ok a => acc ++ [a]) []

/-- `_analyze_multi_chunk_parallel`, after the gather: filter out
exceptions, then hand *whatever remains* to `_quick_synthesis` (modelled
by the opaque total `synth`).  The function body contains no failure
branch of its own: it never raises, whatever the group results are. -/
def analyzeMultiChunkParallel (synth : List String → String)
    (groupResults : List (Except String String)) : Except String String :=
  .ok (synth (filterValidAnalyses groupResults))

/-- The inner `for j in range(i+1, len(chunks))` loop of
`_group_similar_chunks`: absorb every not-yet-used later index whose
similarity with `i` exceeds `0.3`, marking it used. -/
def absorbLoop (sim : Nat → Nat → ℚ) (i : Nat) :
    List Nat → List Nat → List Nat → List Nat × List Nat
  | [], group, used => (group, used)
  | j :: js, group, used =>
    if j ∉ used ∧ sim i j > 3 / 10 then
      absorbLoop sim i js (group ++ [j]) (used ++ [j])
    else absorbLoop sim i js group used

/-- The outer `for i in range(len(chunks))` loop of
`_group_similar_chunks`: each not-yet-used index starts a new group. -/
def groupLoop (sim : Nat → Nat → ℚ) (n : Nat) :
    List Nat → List (List Nat) → List Nat → List (List Nat)
  | [], groups, _ => groups
  | i :: is, groups, used =>
    if i ∈ used then groupLoop sim n is groups used
    else
      let r := absorbLoop sim i (List.range' (i + 1) (n - (i + 1))) [i] (used ++ [i])
      groupLoop sim n is (groups ++ [r.1]) r.2

/-- The greedy single-pass clustering of `_group_similar_chunks`, on
chunk indices `0 .. n-1`. -/
def buildGroups (sim : Nat → Nat → ℚ) (n : Nat) : List (List Nat) :=
  groupLoop sim n (List.range n) [] []

/-- `_group_similar_chunks`: at most 3 chunks, or a vectorization error,
yield one singleton group per chunk; otherwise greedy clustering by the
similarity matrix.  `α` is the chunk-dict type, `contentOf` the
`chunk['content']` projection fed to the vectorizer. -/
def groupSimilarChunks {α : Type} (contentOf : α → String)
    (vectorize : List String → Except String (Nat → Nat → ℚ))
    (chunks : List α) : List (List α) :=
  if chunks.length ≤ 3 then chunks.map (fun c => [c])
  else
    match vectorize (chunks.map contentOf) with
    | .error _ => chunks.map (fun c => [c])
    | .ok sim =>
      (buildGroups sim chunks.length).map (fun g => g.filterMap (fun i => chunks.get? i))

/-! ## Concrete instances used by witnesses and counterexamples

`String.length` is a legitimate instance of the abstracted tiktoken cost
function (deterministic, and additive up to the newline correction). -/

/-- A `CobolChunker(max_tokens=10)` over the character-count estimator. -/
def cobolCfgLen10 : CobolCfg := { maxTokens := 10, enc := String.length }

/-- A `CodeChunker(max_tokens=100)` over the character-count estimator. -/
def codeCfgLen100 : CodeCfg := { maxTokens := 100, enc := String.length }

/-- An `OptimizedChunker(max_tokens=100)` over the character-count
estimator. -/
def optCfgLen100 : OptCfg := { maxTokens := 100, enc := String.length }

/-- A `file_info` record for the demonstration inputs. -/
def fiDemo : FileInfo := { name := "A", path := "a.cbl" }

/-- Six input lines whose costs first exceed `0.9 * 10` at the last line:
the emergency split then fires with `split_point = int(6*0.8) = 4`. -/
def sixLines : List String := ["a", "b", "c", "d", "e", "fffff"]

/-- Seven input lines whose costs first exceed `0.9 * 10` at the last
line: the emergency split then fires with `split_point = int(7*0.8) = 5`. -/
def sevenLines : List String := ["a", "b", "c", "d", "e", "f", "gggg"]

/-- Two lines that each exceed the whole budget on their own. -/
def twoBigLines : List String := ["xxxxxxxxxxxx", "yyyyyyyyyyyy"]

/-- The cache configuration used by the cache witnesses: 24h TTL, with the
identity function standing in for the (opaque, injective) sha256. -/
def cacheCfgW : CacheCfg := { durationHours := 24, hashFn := fun x => x }

/-- The file metadata used by the cache witnesses. -/
def fmW : FileMeta := { name := "prog.cbl", language := "cobol" }

/-- The stale entry used by the C5 witness (mtime 0). -/
def staleEntryW : CacheEntry :=
  { mtime := 0, fileInfo := fmW, contentHash := "MOVE A TO B"
    analysisResponse := "old analysis" }

/-- A small python file fitting the budget, used by the C1 witness. -/
def smallPyFile : OFile :=
  { name := "a.py", path := "a.py", content := "x", language := "python", lines := 1, size := 1 }

/-- The chunk `_create_chunked_content` builds for `[smallPyFile]`. -/
def c1WitnessChunk : KChunk :=
  { content := "\n\n--- File: a.py (python) ---\nx", files := ["a.py"], tokens := 31 }

/-- The "absorbs every" property of a greedy grouping: any later index
similar enough to a group's head is already assigned by the time that
group is closed (it lies in that group or an earlier one). -/
def CompleteAt (sim : Nat → Nat → ℚ) (n : Nat) (gs : List (List Nat)) : Prop :=
  ∀ k h t, gs.get? k = some (h :: t) →
    ∀ j, h < j → j < n → sim h j > 3 / 10 → j ∈ (gs.take (k + 1)).flatten

/-- A file routed to the `core` bucket, used by the C9 witness. -/
def fMainW : OFile :=
  { name := "main.py", path := "main.py", content := "", language := "python"
    lines := 10, size := 0 }

/-- A file matching no bucket pattern, used by the C9 witness. -/
def fMiscW : OFile :=
  { name := "notes.txt", path := "notes.txt", content := "", language := "txt"
    lines := 20, size := 0 }

/-! ## Theorems -/

/-- Helper: the exception-filtering fold, with its accumulator made
explicit, is `filterMap`. -/
theorem filterValid_foldl_eq (rs : List (Except String String)) (acc : List String) :
    rs.foldl (fun acc r =>
      match r with
      | .error _ => acc
      | .ok a => acc ++ [a]) acc
    = acc ++ rs.filterMap (fun r =>
        match r with
        | .ok a => some a
        | .error _ => none) := by
  induction rs generalizing acc with
  | nil => simp
  | cons r rest ih =>
    cases r with
    | error e => simpa using ih acc
    | ok a => simp [ih (acc ++ [a])]

/-- C7 (corrected): `_analyze_multi_chunk_parallel` excludes every failed
group analysis and hands exactly the remaining valid results, in order, to
`_quick_synthesis`; it contains no failure branch of its own, so even when
*all* group analyses fail it still proceeds to synthesis with the empty
result list instead of propagating a terminal failure. -/
theorem C7_partial_failure_amended (synth : List String → String)
    (rs : List (Except String String)) :
    filterValidAnalyses rs
      = rs.filterMap (fun r =>
          match r with
          | .ok a => some a
          | .error _ => none)
    ∧ analyzeMultiChunkParallel synth rs = .ok (synth (filterValidAnalyses rs)) := by
  refine ⟨?_, rfl⟩
  simpa using filterValid_foldl_eq rs []

/-- C7 counterexample to the claim as stated: when every chunk-group
analysis fails, the pipeline does *not* propagate a terminal failure — it
returns the synthesis of the empty result list. -/
theorem C7_partial_failure_counterexample :
    analyzeMultiChunkParallel (fun _ => "synthesized")
      [.error "group 1 failed", .error "group 2 failed"] = .ok "synthesized"
    ∧ filterValidAnalyses
        [(.error "group 1 failed" : Except String String), .error "group 2 failed"] = [] := by
  exact ⟨rfl, rfl⟩

/-- C6 (confirmed): `_find_cobol_boundaries` records at most one boundary
per line (the classification is a single `Option`), and the recorded tier
is the highest-priority matching tier: any division match wins, a section
match wins over paragraph matches, a paragraph tag is recorded only when
no higher tier matches, and nothing is recorded when no tier matches. -/
theorem C6_boundary_priority (line : String) :
    (matchesAnyDivision (normCobolLine line) = true →
      classifyCobolLine line
        = some { btype := extractDivisionName (normCobolLine line), level := BLevel.division })
    ∧ (matchesAnyDivision (normCobolLine line) = false →
        matchesAnySection (normCobolLine line) = true →
        classifyCobolLine line
          = some { btype := extractSectionName (normCobolLine line), level := BLevel.section })
    ∧ (matchesAnyDivision (normCobolLine line) = false →
        matchesAnySection (normCobolLine line) = false →
        matchesAnyParagraph (normCobolLine line) = true →
        classifyCobolLine line
          = some { btype := extractParagraphName (normCobolLine line), level := BLevel.paragraph })
    ∧ (matchesAnyDivision (normCobolLine line) = false →
        matchesAnySection (normCobolLine line) = false →
        matchesAnyParagraph (normCobolLine line) = false →
        classifyCobolLine line = none) := by
  refine ⟨fun h1 => ?_, fun h1 h2 => ?_, fun h1 h2 h3 => ?_, fun h1 h2 h3 => ?_⟩ <;>
    simp [classifyCobolLine, h1] <;> simp [h2] <;> simp [h3]

/-- Witness for C6 at concrete lines: `"DATA DIVISION."` is recorded as a
division; `"PROGRAM-ID."` matches both a section pattern and a paragraph
pattern, and the recorded tag is the section-level one (higher tier). -/
theorem C6_boundary_priority_witness :
    classifyCobolLine "DATA DIVISION."
      = some { btype := "DATA_DIVISION", level := BLevel.division }
    ∧ matchesAnyParagraph (normCobolLine "PROGRAM-ID.") = true
    ∧ classifyCobolLine "PROGRAM-ID."
      = some { btype := "PROGRAM_ID", level := BLevel.section } := by
  refine ⟨?_, by decide, ?_⟩
  · exact (C6_boundary_priority "DATA DIVISION.").1 (by decide)
  · exact (C6_boundary_priority "PROGRAM-ID.").2.1 (by decide) (by decide)

/-- C10 (confirmed): when the first processed file is tagged `cobol`,
`prepare_code_for_analysis` delegates to `CobolChunker` on that first
file's content alone; the result is a function of the first file only —
every other input file is absent from (and irrelevant to) the output. -/
theorem C10_cobol_delegation (c : OptCfg) (f : OFile) (rest rest' : List OFile)
    (h : strLowerAscii f.language = "cobol") :
    prepareCodeForAnalysisOpt c (f :: rest)
      = .cobol (chunkCobolFile { maxTokens := c.maxTokens, enc := c.enc } f.content
          { name := f.name, path := f.path })
    ∧ prepareCodeForAnalysisOpt c (f :: rest) = prepareCodeForAnalysisOpt c (f :: rest') := by
  constructor <;> simp [prepareCodeForAnalysisOpt, h]

/-- Witness for C10: a two-file input whose first file is COBOL produces
exactly the COBOL chunker's output on the first file, identical to the
output for the first file alone. -/
theorem C10_cobol_delegation_witness :
    prepareCodeForAnalysisOpt optCfgLen100
      [{ name := "PAY.CBL", path := "PAY.CBL", content := "IDENTIFICATION DIVISION."
         language := "COBOL", lines := 1, size := 24 },
       { name := "util.py", path := "util.py", content := "def f():\n  pass"
         language := "python", lines := 2, size := 15 }]
      = .cobol (chunkCobolFile { maxTokens := 100, enc := String.length }
          "IDENTIFICATION DIVISION." { name := "PAY.CBL", path := "PAY.CBL" })
    ∧ prepareCodeForAnalysisOpt optCfgLen100
        [{ name := "PAY.CBL", path := "PAY.CBL", content := "IDENTIFICATION DIVISION."
           language := "COBOL", lines := 1, size := 24 },
         { name := "util.py", path := "util.py", content := "def f():\n  pass"
           language := "python", lines := 2, size := 15 }]
      = prepareCodeForAnalysisOpt optCfgLen100
          [{ name := "PAY.CBL", path := "PAY.CBL", content := "IDENTIFICATION DIVISION."
             language := "COBOL", lines := 1, size := 24 }] := by
  constructor
  · exact (C10_cobol_delegation optCfgLen100 _ _ [] (by decide)).1
  · exact (C10_cobol_delegation optCfgLen100 _ _ [] (by decide)).2


/-- Helper: after an overwrite of a present key, the key's file holds the
written entry. -/
theorem lookup_map_replace (l : List (String × CacheEntry)) (k : String) (e : CacheEntry)
    (h : (l.lookup k).isSome) :
    (l.map (fun p => if p.1 = k then (k, e) else p)).lookup k = some e := by
  induction l with
  | nil => simp [List.lookup] at h
  | cons p rest ih =>
    rcases p with ⟨a, b⟩
    by_cases ha : a = k
    · simp [ha, List.lookup_cons]
    · have h' : (rest.lookup k).isSome := by
        simpa [List.lookup_cons, beq_false_of_ne (Ne.symm ha)] using h
      simpa [ha, List.lookup_cons, beq_false_of_ne (Ne.symm ha)] using ih h'

/-- Helper: a freshly created key's file holds the written entry. -/
theorem lookup_append_new (l : List (String × CacheEntry)) (k : String) (e : CacheEntry)
    (h : l.lookup k = none) :
    (l ++ [(k, e)]).lookup k = some e := by
  induction l with
  | nil => simp [List.lookup_cons]
  | cons p rest ih =>
    rcases p with ⟨a, b⟩
    by_cases ha : a = k
    · simp [ha, List.lookup_cons] at h
    · have h' : rest.lookup k = none := by
        simpa [List.lookup_cons, beq_false_of_ne (Ne.symm ha)] using h
      simpa [List.lookup_cons, beq_false_of_ne (Ne.symm ha)] using ih h'

/-- Helper: a key's file, after a write, holds exactly the written entry. -/
theorem lookup_putEntry_self (l : List (String × CacheEntry)) (k : String) (e : CacheEntry) :
    (putEntry l k e).lookup k = some e := by
  unfold putEntry
  split
  · exact lookup_map_replace l k e (by assumption)
  · rename_i hnone
    refine lookup_append_new l k e ?_
    cases hl : l.lookup k with
    | none => rfl
    | some v => simp [hl] at hnone

/-- Helper: a successful lookup exhibits a member with that key. -/
theorem mem_of_lookup_eq_some {β : Type} (l : List (String × β)) (k : String) (v : β)
    (h : l.lookup k = some v) : (k, v) ∈ l := by
  induction l with
  | nil => simp [List.lookup] at h
  | cons p rest ih =>
    rcases p with ⟨a, b⟩
    by_cases ha : a = k
    · subst ha
      simp [List.lookup_cons] at h
      simp [h]
    · have h' : rest.lookup k = some v := by
        simpa [List.lookup_cons, beq_false_of_ne (Ne.symm ha)] using h
      exact List.mem_cons_of_mem _ (ih h')

/-- Helper: after deleting a key's file, looking the key up misses. -/
theorem lookup_filter_ne {β : Type} (l : List (String × β)) (k : String) :
    (l.filter (fun p => p.1 ≠ k)).lookup k = none := by
  induction l with
  | nil => simp [List.lookup]
  | cons p rest ih =>
    rcases p with ⟨a, b⟩
    by_cases ha : a = k
    · simpa [List.filter, ha] using ih
    · simpa [List.filter, ha, List.lookup_cons, beq_false_of_ne (Ne.symm ha)] using ih

/-- Helper: overwriting an existing file keeps the file count. -/
theorem putEntry_length_of_isSome (l : List (String × CacheEntry)) (k : String)
    (e : CacheEntry) (h : (l.lookup k).isSome) : (putEntry l k e).length = l.length := by
  unfold putEntry
  simp [h]

/-- Helper: a missing key occurs on no file. -/
theorem forall_ne_of_lookup_eq_none {β : Type} (l : List (String × β)) (k : String)
    (h : l.lookup k = none) : ∀ p ∈ l, p.1 ≠ k := by
  induction l with
  | nil => simp
  | cons p rest ih =>
    rcases p with ⟨a, b⟩
    by_cases ha : a = k
    · simp [ha, List.lookup_cons] at h
    · have h' : rest.lookup k = none := by
        simpa [List.lookup_cons, beq_false_of_ne (Ne.symm ha)] using h
      intro q hq
      rcases List.mem_cons.mp hq with hq1 | hq1
      · simpa [hq1] using ha
      · exact ih h' q hq1

/-- Helper: with distinct keys on disk, a present key occupies exactly one
file. -/
theorem filter_key_length_one {β : Type} (l : List (String × β)) (k : String) (v : β)
    (hnd : (l.map Prod.fst).Nodup) (h : l.lookup k = some v) :
    (l.filter (fun p => p.1 = k)).length = 1 := by
  induction l with
  | nil => simp [List.lookup] at h
  | cons p rest ih =>
    rcases p with ⟨a, b⟩
    have hnd' : (rest.map Prod.fst).Nodup := (List.nodup_cons.mp hnd).2
    by_cases ha : a = k
    · subst ha
      have hnotk : a ∉ rest.map Prod.fst := by
        simpa using (List.nodup_cons.mp hnd).1
      have hrest : rest.filter (fun q => q.1 = a) = [] := by
        refine List.filter_eq_nil_iff.mpr ?_
        intro q hq
        simp only [decide_eq_true_eq]
        intro hqk
        exact hnotk (by
          rw [← hqk]
          exact List.mem_map_of_mem Prod.fst hq)
      simp [List.filter, hrest]
    · have h' : rest.lookup k = some v := by
        simpa [List.lookup_cons, beq_false_of_ne (Ne.symm ha)] using h
      simpa [List.filter, ha] using ih hnd' h'

/-- Helper: an overwrite keeps the per-key file count; a fresh write makes
it one. -/
theorem map_replace_filter_length (l : List (String × CacheEntry)) (k : String)
    (e : CacheEntry) :
    ((l.map (fun p => if p.1 = k then (k, e) else p)).filter (fun p => p.1 = k)).length
      = (l.filter (fun p => p.1 = k)).length := by
  induction l with
  | nil => simp
  | cons p rest ih =>
    rcases p with ⟨a, b⟩
    by_cases ha : a = k
    · simp [List.filter, ha, ih]
    · simp [List.filter, ha, ih]

/-- Helper: the per-key file count after a write. -/
theorem putEntry_filter_key (l : List (String × CacheEntry)) (k : String) (e : CacheEntry) :
    ((putEntry l k e).filter (fun p => p.1 = k)).length
      = if (l.lookup k).isSome then (l.filter (fun p => p.1 = k)).length else 1 := by
  unfold putEntry
  split
  · exact map_replace_filter_length l k e
  · rename_i hnone
    have hnone' : l.lookup k = none := by
      cases hl : l.lookup k with
      | none => rfl
      | some v => simp [hl] at hnone
    have hnil : l.filter (fun p => p.1 = k) = [] := by
      refine List.filter_eq_nil_iff.mpr ?_
      intro q hq
      simpa using forall_ne_of_lookup_eq_none l k hnone' q hq
    simp [hnil, List.filter_append, List.filter]

/-- C4 (confirmed): a `get` immediately after a `put` with identical
`(content, file_info)` returns the stored response (the entry is fresh
since its mtime is the write time and the TTL is positive); a second
`put` with the same key overwrites in place, leaving the cache size
unchanged and exactly one file for that key. -/
theorem C4_cache_idempotent (c : CacheCfg) (now : Nat) (content : String)
    (fi : FileMeta) (resp : String) (s : CacheState)
    (hdur : 0 < c.durationHours)
    (hkeys : (s.entries.map Prod.fst).Nodup) :
    (getCachedAnalysis c now content fi (saveAnalysis c now content fi resp s)).1 = some resp
    ∧ (saveAnalysis c now content fi resp (saveAnalysis c now content fi resp s)).entries.length
        = (saveAnalysis c now content fi resp s).entries.length
    ∧ ((saveAnalysis c now content fi resp s).entries.filter
        (fun p => p.1 = generateCacheKey c content fi)).length = 1 := by
  have hlk := lookup_putEntry_self s.entries (generateCacheKey c content fi)
    ⟨now, fi, c.hashFn content, resp⟩
  have hfresh : entryFresh c now (⟨now, fi, c.hashFn content, resp⟩ : CacheEntry) = true := by
    simp [entryFresh, CacheCfg.durationSecs]
    omega
  refine ⟨?_, ?_, ?_⟩
  · simp [getCachedAnalysis, saveAnalysis, hlk, hfresh]
  · simp only [saveAnalysis]
    exact putEntry_length_of_isSome _ _ _ (by simp [hlk])
  · simp only [saveAnalysis]
    rw [putEntry_filter_key]
    split
    · rename_i hsome
      rcases Option.isSome_iff_exists.mp hsome with ⟨v, hv⟩
      exact filter_key_length_one s.entries (generateCacheKey c content fi) v hkeys hv
    · rfl



/-- Witness for C4 on a concrete empty cache: the freshly saved analysis
is returned by the immediately following `get`, and the double save keeps
a single entry. -/
theorem C4_cache_idempotent_witness :
    (getCachedAnalysis cacheCfgW 1000 "MOVE A TO B" fmW
      (saveAnalysis cacheCfgW 1000 "MOVE A TO B" fmW "analysis text" ⟨[]⟩)).1
      = some "analysis text"
    ∧ (saveAnalysis cacheCfgW 1000 "MOVE A TO B" fmW "analysis text"
        (saveAnalysis cacheCfgW 1000 "MOVE A TO B" fmW "analysis text" ⟨[]⟩)).entries.length
      = (saveAnalysis cacheCfgW 1000 "MOVE A TO B" fmW "analysis text" ⟨[]⟩).entries.length
    ∧ ((saveAnalysis cacheCfgW 1000 "MOVE A TO B" fmW "analysis text" ⟨[]⟩).entries.filter
        (fun p => p.1 = generateCacheKey cacheCfgW "MOVE A TO B" fmW)).length = 1 :=
  C4_cache_idempotent cacheCfgW 1000 "MOVE A TO B" fmW "analysis text" ⟨[]⟩
    (by decide) (by decide)

/-- C5 (confirmed): an entry older than the TTL is reported as a miss by
`get_cached_analysis`, which also proactively unlinks it (the key no
longer resolves afterwards); `cleanup_expired_cache` removes it (it is
not among the kept entries) and its returned count is the number of
expired entries, our stale entry among them. -/
theorem C5_ttl_expiry (c : CacheCfg) (now : Nat) (content : String) (fi : FileMeta)
    (s : CacheState) (e : CacheEntry)
    (hlook : s.entries.lookup (generateCacheKey c content fi) = some e)
    (hstale : c.durationSecs ≤ now - e.mtime) :
    (getCachedAnalysis c now content fi s).1 = none
    ∧ (getCachedAnalysis c now content fi s).2.entries.lookup
        (generateCacheKey c content fi) = none
    ∧ (generateCacheKey c content fi, e)
        ∈ s.entries.filter (fun p => ¬ entryFresh c now p.2)
    ∧ (cleanupExpiredCache c now s).1
        = (s.entries.filter (fun p => ¬ entryFresh c now p.2)).length
    ∧ (generateCacheKey c content fi, e) ∉ (cleanupExpiredCache c now s).2.entries := by
  have hstaleb : entryFresh c now e = false := by
    simp [entryFresh]
    omega
  refine ⟨?_, ?_, ?_, rfl, ?_⟩
  · simp [getCachedAnalysis, hlook, hstaleb]
  · simp only [getCachedAnalysis, hlook, hstaleb]
    simpa using lookup_filter_ne s.entries (generateCacheKey c content fi)
  · refine List.mem_filter.mpr ⟨mem_of_lookup_eq_some s.entries _ e hlook, ?_⟩
    simp [hstaleb]
  · intro hmem
    have := (List.mem_filter.mp hmem).2
    simp [cleanupExpiredCache, hstaleb] at this


/-- Witness for C5: at `now = 90000` (more than 24h after mtime 0) the
stale entry is a miss, is deleted by `get`, and is removed and counted by
`cleanup_expired_cache`. -/
theorem C5_ttl_expiry_witness :
    (getCachedAnalysis cacheCfgW 90000 "MOVE A TO B" fmW
      ⟨[(generateCacheKey cacheCfgW "MOVE A TO B" fmW, staleEntryW)]⟩).1 = none
    ∧ (getCachedAnalysis cacheCfgW 90000 "MOVE A TO B" fmW
        ⟨[(generateCacheKey cacheCfgW "MOVE A TO B" fmW, staleEntryW)]⟩).2.entries.lookup
        (generateCacheKey cacheCfgW "MOVE A TO B" fmW) = none
    ∧ (generateCacheKey cacheCfgW "MOVE A TO B" fmW, staleEntryW)
        ∈ ([(generateCacheKey cacheCfgW "MOVE A TO B" fmW, staleEntryW)]).filter
          (fun p => ¬ entryFresh cacheCfgW 90000 p.2)
    ∧ (cleanupExpiredCache cacheCfgW 90000
        ⟨[(generateCacheKey cacheCfgW "MOVE A TO B" fmW, staleEntryW)]⟩).1
        = (([(generateCacheKey cacheCfgW "MOVE A TO B" fmW, staleEntryW)]).filter
          (fun p => ¬ entryFresh cacheCfgW 90000 p.2)).length
    ∧ (generateCacheKey cacheCfgW "MOVE A TO B" fmW, staleEntryW)
        ∉ (cleanupExpiredCache cacheCfgW 90000
          ⟨[(generateCacheKey cacheCfgW "MOVE A TO B" fmW, staleEntryW)]⟩).2.entries :=
  C5_ttl_expiry cacheCfgW 90000 "MOVE A TO B" fmW
    ⟨[(generateCacheKey cacheCfgW "MOVE A TO B" fmW, staleEntryW)]⟩ staleEntryW
    (by decide) (by decide)

/-- C1 counterexample to the claim as stated: with budget 10 and the
character-count estimator, a COBOL file of two 12-character lines (no
structural boundaries) yields two chunks, *both* over budget — the final
flush emits an over-budget chunk that was not produced by the
emergency-split path, so "all chunks except possibly one emergency-split
chunk are within budget" fails. -/
theorem C1_budget_respect_counterexample :
    (chunkByCobolStructure cobolCfgLen10 twoBigLines fiDemo).length = 2
    ∧ (chunkByCobolStructure cobolCfgLen10 twoBigLines fiDemo).all
        (fun ch => decide (cobolCfgLen10.maxTokens < ch.tokens)) = true := by
  exact ⟨rfl, rfl⟩

/-- Helper: one accumulation step of `_create_chunked_content` keeps the
invariant "every emitted chunk is a large-file chunk or within 90% of the
budget, and the running total is within 90% of the budget". -/
theorem chunkedContentStep_inv (c : CodeCfg) (all : List OFile) (s : KAccState) (f : OFile)
    (hf : f ∈ all)
    (hc : ∀ ch ∈ s.chunks,
      (∃ g, g ∈ all ∧ ch ∈ chunkLargeFile c g) ∨ 10 * ch.tokens ≤ 9 * c.maxTokens)
    (ht : 10 * s.curTok ≤ 9 * c.maxTokens) :
    (∀ ch ∈ (chunkedContentStep c s f).chunks,
      (∃ g, g ∈ all ∧ ch ∈ chunkLargeFile c g) ∨ 10 * ch.tokens ≤ 9 * c.maxTokens)
    ∧ 10 * (chunkedContentStep c s f).curTok ≤ 9 * c.maxTokens := by
  unfold chunkedContentStep
  dsimp only
  split
  · constructor
    · intro ch hch
      rcases List.mem_append.mp hch with h1 | h2
      · split at h1
        · rcases List.mem_append.mp h1 with h3 | h4
          · exact hc ch h3
          · right
            have := List.mem_singleton.mp h4
            rw [this]
            exact ht
        · exact hc ch h1
      · exact Or.inl ⟨f, hf, h2⟩
    · simp
  · split
    · rename_i hbig hover
      constructor
      · intro ch hch
        split at hch
        · rcases List.mem_append.mp hch with h3 | h4
          · exact hc ch h3
          · right
            have := List.mem_singleton.mp h4
            rw [this]
            exact ht
        · exact hc ch hch
      · dsimp only
        omega
    · rename_i hbig hfits
      exact ⟨hc, by dsimp only; omega⟩

/-- Helper: the accumulation invariant holds through the whole file
loop of `_create_chunked_content`. -/
theorem chunkedFold_inv (c : CodeCfg) (all : List OFile) (fs : List OFile) (s : KAccState)
    (hfs : ∀ f ∈ fs, f ∈ all)
    (hc : ∀ ch ∈ s.chunks,
      (∃ g, g ∈ all ∧ ch ∈ chunkLargeFile c g) ∨ 10 * ch.tokens ≤ 9 * c.maxTokens)
    (ht : 10 * s.curTok ≤ 9 * c.maxTokens) :
    (∀ ch ∈ (fs.foldl (chunkedContentStep c) s).chunks,
      (∃ g, g ∈ all ∧ ch ∈ chunkLargeFile c g) ∨ 10 * ch.tokens ≤ 9 * c.maxTokens)
    ∧ 10 * (fs.foldl (chunkedContentStep c) s).curTok ≤ 9 * c.maxTokens := by
  induction fs generalizing s with
  | nil => exact ⟨hc, ht⟩
  | cons f rest ih =>
    have hstep := chunkedContentStep_inv c all s f (hfs f (by simp)) hc ht
    exact ih _ (fun g hg => hfs g (by simp [hg])) hstep.1 hstep.2

/-- C1 (corrected): in the generic chunker's multi-file path
(`_create_chunked_content`), every chunk that is not produced by the
single-large-file splitter (`_chunk_large_file`) has recorded token count
at most 90% of the budget, hence within budget; the COBOL structural
chunker offers no such guarantee — chunks outside its emergency-split
path, including the final flush, can exceed the budget (see the
counterexample). -/
theorem C1_budget_respect_amended (c : CodeCfg) (files : List OFile) (ch : KChunk)
    (hch : ch ∈ (createChunkedContent c files).chunks) :
    (∃ f, f ∈ files ∧ ch ∈ chunkLargeFile c f) ∨ 10 * ch.tokens ≤ 9 * c.maxTokens := by
  have hmem : ∀ f ∈ sortFilesByImportance files, f ∈ files := by
    intro f hf
    exact (List.perm_insertionSort _ files).subset hf
  have hinv := chunkedFold_inv c files (sortFilesByImportance files)
    { chunks := [], curContent := "", curFiles := [], curTok := 0 }
    hmem (by simp) (by simp)
  unfold createChunkedContent at hch
  dsimp only at hch
  split at hch
  · rcases List.mem_append.mp hch with h1 | h2
    · exact hinv.1 ch h1
    · right
      have := List.mem_singleton.mp h2
      rw [this]
      exact hinv.2
  · exact hinv.1 ch hch

/-- Witness for the amended C1 at a concrete input: the single chunk
built for a one-file repository is within 90% of the budget. -/
theorem C1_budget_respect_amended_witness :
    c1WitnessChunk ∈ (createChunkedContent codeCfgLen100 [smallPyFile]).chunks
    ∧ ((∃ f, f ∈ [smallPyFile] ∧ c1WitnessChunk ∈ chunkLargeFile codeCfgLen100 f)
        ∨ 10 * c1WitnessChunk.tokens ≤ 9 * codeCfgLen100.maxTokens) := by
  refine ⟨by decide, ?_⟩
  exact C1_budget_respect_amended codeCfgLen100 [smallPyFile] _ (by decide)

/-- C2 (code bug — line dropped): with budget 10 and the character-count
estimator, the six-line input hits the emergency split with
`split_point = int(6*0.8) = 4 < 5`; the `current_chunk_lines[split_point-5:]`
slice then wraps around (Python negative index) and keeps only the last
line — line `"e"` (index 4) appears in *no* emitted chunk, contradicting
the coverage invariant the spec states. -/
theorem C2_coverage_failing :
    (chunkByCobolStructure cobolCfgLen10 sixLines fiDemo).map CChunk.chunkLines
      = [["a", "b", "c", "d"], ["fffff"]]
    ∧ (chunkByCobolStructure cobolCfgLen10 sixLines fiDemo).all
        (fun ch => decide ("e" ∉ ch.chunkLines)) = true := by
  exact ⟨rfl, by decide⟩

/-- C3 counterexample to the strict-decrease part of the claim: the
seven-line input hits the emergency split with
`split_point = int(7*0.8) = 5`, and `current_chunk_lines[5-5:]` keeps the
*entire* accumulated chunk — its line count does not strictly decrease
(and the run's final chunk indeed repeats all seven lines). -/
theorem C3_progress_counterexample :
    findSafeSplitPoint sevenLines = 5
    ∧ (emergencyRemainder sevenLines).length = sevenLines.length
    ∧ (chunkByCobolStructure cobolCfgLen10 sevenLines fiDemo).map CChunk.chunkLines
      = [["a", "b", "c", "d", "e"], ["a", "b", "c", "d", "e", "f", "gggg"]] := by
  refine ⟨rfl, rfl, rfl⟩

/-- Helper: the append/emergency part of the COBOL loop never emits an
empty chunk. -/
theorem cobolAppendStep_nonempty (c : CobolCfg) (fi : FileInfo) (s : CState) (line : String)
    (h : ∀ ch ∈ s.chunks, ch.chunkLines ≠ []) :
    ∀ ch ∈ (cobolAppendStep c fi s line).chunks, ch.chunkLines ≠ [] := by
  unfold cobolAppendStep
  dsimp only
  split
  · split
    · rename_i hsp
      intro ch hch
      rcases List.mem_append.mp hch with h1 | h2
      · exact h ch h1
      · have hch2 : ch = createCobolChunk c
            ((s.cur ++ [line]).take (findSafeSplitPoint (s.cur ++ [line]))) fi
            s.chunkNo s.curSection := by
          simpa using h2
        rw [hch2]
        simp only [createCobolChunk]
        intro habs
        rcases List.take_eq_nil_iff.mp habs with h0 | h0
        · omega
        · simp at h0
    · exact h
  · exact h

/-- Helper: a full COBOL loop iteration never emits an empty chunk. -/
theorem cobolStep_nonempty (c : CobolCfg) (fi : FileInfo) (s : CState) (line : String)
    (h : ∀ ch ∈ s.chunks, ch.chunkLines ≠ []) :
    ∀ ch ∈ (cobolStep c fi s line).chunks, ch.chunkLines ≠ [] := by
  unfold cobolStep
  cases hcl : classifyCobolLine line with
  | none => exact cobolAppendStep_nonempty c fi s line h
  | some b =>
    dsimp only
    split
    · rename_i hcond
      intro ch hch
      rcases List.mem_append.mp hch with h1 | h2
      · exact h ch h1
      · have hch2 : ch = createCobolChunk c s.cur fi s.chunkNo b.btype := by
          simpa using h2
        rw [hch2]
        simpa only [createCobolChunk] using hcond.2.1
    · exact cobolAppendStep_nonempty c fi _ line h

/-- Helper: the no-empty-chunk invariant holds through the whole COBOL
line loop. -/
theorem cobolFold_nonempty (c : CobolCfg) (fi : FileInfo) (lines : List String) (s : CState)
    (h : ∀ ch ∈ s.chunks, ch.chunkLines ≠ []) :
    ∀ ch ∈ (lines.foldl (cobolStep c fi) s).chunks, ch.chunkLines ≠ [] := by
  induction lines generalizing s with
  | nil => exact h
  | cons line rest ih => exact ih _ (cobolStep_nonempty c fi s line h)

/-- C3 (corrected): the emergency split never *increases* the accumulated
chunk's line count (strict decrease fails when the split point is exactly
the 5-line overlap — see the counterexample), the chunker is a total
single pass so it terminates on every input including a single giant
paragraph with no boundaries, and no emitted chunk is ever empty. -/
theorem C3_progress_amended (c : CobolCfg) (fi : FileInfo) (lines cur : List String) :
    (emergencyRemainder cur).length ≤ cur.length
    ∧ ∀ ch ∈ chunkByCobolStructure c lines fi, ch.chunkLines ≠ [] := by
  constructor
  · unfold emergencyRemainder pySliceFrom
    split <;> simp
  · unfold chunkByCobolStructure
    dsimp only
    split
    · rename_i hne
      intro ch hch
      rcases List.mem_append.mp hch with h1 | h2
      · exact cobolFold_nonempty c fi lines _ (by simp) ch h1
      · have hch2 := List.mem_singleton.mp h2
        rw [hch2]
        simpa only [createCobolChunk] using hne
    · exact cobolFold_nonempty c fi lines _ (by simp)

/-- Witness for the amended C3 at the pathological boundary-free input:
the remainder does not grow and the emitted chunks are nonempty. -/
theorem C3_progress_amended_witness :
    (emergencyRemainder sevenLines).length ≤ sevenLines.length
    ∧ ∀ ch ∈ chunkByCobolStructure cobolCfgLen10 sevenLines fiDemo, ch.chunkLines ≠ [] :=
  C3_progress_amended cobolCfgLen10 fiDemo sevenLines sevenLines

theorem absorbLoop_spec (sim : Nat → Nat → ℚ) (i : Nat) :
    ∀ (js g u : List Nat), ∃ d : List Nat,
      absorbLoop sim i js g u = (g ++ d, u ++ d)
      ∧ (∀ x ∈ d, x ∈ js ∧ sim i x > 3 / 10 ∧ x ∉ u)
      ∧ d.Nodup
      ∧ (∀ j ∈ js, sim i j > 3 / 10 → j ∈ u ++ d) := by
  intro js
  induction js with
  | nil =>
    intro g u
    exact ⟨[], by simp [absorbLoop], by simp, by simp, by simp⟩
  | cons j rest ih =>
    intro g u
    by_cases hc : j ∉ u ∧ sim i j > 3 / 10
    · rcases ih (g ++ [j]) (u ++ [j]) with ⟨d', heq, hprop, hnd, hcompl⟩
      refine ⟨j :: d', ?_, ?_, ?_, ?_⟩
      · simpa [absorbLoop, hc] using heq
      · intro x hx
        rcases List.mem_cons.mp hx with hx | hx
        · subst hx
          exact ⟨by simp, hc.2, hc.1⟩
        · rcases hprop x hx with ⟨h1, h2, h3⟩
          exact ⟨by simp [h1], h2, fun hxu => h3 (by simp [hxu])⟩
      · refine List.nodup_cons.mpr ⟨?_, hnd⟩
        intro hj
        exact (hprop j hj).2.2 (by simp)
      · intro j0 hj0 hs
        rcases List.mem_cons.mp hj0 with hj0 | hj0
        · simp [hj0]
        · have := hcompl j0 hj0 hs
          simpa using this
    · rcases ih g u with ⟨d, heq, hprop, hnd, hcompl⟩
      refine ⟨d, ?_, ?_, hnd, ?_⟩
      · simpa [absorbLoop, hc] using heq
      · intro x hx
        rcases hprop x hx with ⟨h1, h2, h3⟩
        exact ⟨by simp [h1], h2, h3⟩
      · intro j0 hj0 hs
        rcases List.mem_cons.mp hj0 with hj0 | hj0
        · subst hj0
          rcases not_and_or.mp hc with hju | hsim
        
          · simp [List.mem_append.mpr (Or.inl (not_not.mp hju))]
          · exact absurd hs hsim
        · exact List.mem_append.mpr (by
            rcases List.mem_append.mp (hcompl j0 hj0 hs) with h | h
            · exact Or.inl h
            · exact Or.inr h)


theorem groupLoop_spec (sim : Nat → Nat → ℚ) (n : Nat) :
    ∀ (is : List Nat) (groups : List (List Nat)) (used : List Nat),
    (∀ m ∈ is, m < n) →
    used = groups.flatten →
    used.Nodup →
    (∀ m ∈ used, m < n) →
    (∀ g ∈ groups, ∃ h t, g = h :: t ∧ h < n ∧ ∀ j ∈ t, h < j ∧ j < n ∧ sim h j > 3 / 10) →
    CompleteAt sim n groups →
    (groupLoop sim n is groups used).flatten.Nodup
    ∧ (∀ m ∈ (groupLoop sim n is groups used).flatten, m < n)
    ∧ (∀ m ∈ used, m ∈ (groupLoop sim n is groups used).flatten)
    ∧ (∀ m ∈ is, m ∈ (groupLoop sim n is groups used).flatten)
    ∧ (∀ g ∈ groupLoop sim n is groups used, ∃ h t, g = h :: t ∧ h < n
        ∧ ∀ j ∈ t, h < j ∧ j < n ∧ sim h j > 3 / 10)
    ∧ CompleteAt sim n (groupLoop sim n is groups used) := by
  intro is
  induction is with
  | nil =>
    intro groups used hin hflat hnd hlt hsound hcompl
    subst hflat
    exact ⟨hnd, hlt, fun m hm => hm, by simp, hsound, hcompl⟩
  | cons i rest ih =>
    intro groups used hin hflat hnd hlt hsound hcompl
    by_cases hi : i ∈ used
    · have h1 : groupLoop sim n (i :: rest) groups used = groupLoop sim n rest groups used := by
        simp [groupLoop, hi]
      rw [h1]
      have := ih groups used (fun m hm => hin m (by simp [hm])) hflat hnd hlt hsound hcompl
      refine ⟨this.1, this.2.1, this.2.2.1, ?_, this.2.2.2.2.1, this.2.2.2.2.2⟩
      intro m hm
      rcases List.mem_cons.mp hm with hm | hm
      · exact this.2.2.1 m (hm ▸ hi)
      · exact this.2.2.2.1 m hm
    · rcases absorbLoop_spec sim i (List.range' (i + 1) (n - (i + 1))) [i] (used ++ [i])
        with ⟨d, heq, hprop, hndd, hcomplA⟩
      have hiltn : i < n := hin i (by simp)
      have hrange : ∀ x ∈ List.range' (i + 1) (n - (i + 1)), i < x ∧ x < n := by
        intro x hx
        rcases List.mem_range'_1.mp hx with ⟨hx1, hx2⟩
        exact ⟨by omega, by omega⟩
      have h1 : groupLoop sim n (i :: rest) groups used
          = groupLoop sim n rest (groups ++ [[i] ++ d]) ((used ++ [i]) ++ d) := by
        simp only [groupLoop, hi, if_false]
        rw [heq]
      rw [h1]
      -- establish the invariant for the extended state
      have hflat' : (used ++ [i]) ++ d = (groups ++ [[i] ++ d]).flatten := by
        simp [hflat]
      have hnd' : ((used ++ [i]) ++ d).Nodup := by
        have hdisj1 : ∀ x ∈ d, x ∉ used ++ [i] := fun x hx => (hprop x hx).2.2
        have hndui : (used ++ [i]).Nodup := by
          refine List.Nodup.append hnd (by simp) ?_
          intro a ha hb
          rcases List.mem_singleton.mp hb with rfl
          exact hi ha
        refine List.Nodup.append hndui hndd ?_
        intro a ha hb
        exact hdisj1 a hb ha
      have hlt' : ∀ m ∈ (used ++ [i]) ++ d, m < n := by
        intro m hm
        rcases List.mem_append.mp hm with hm | hm
        · rcases List.mem_append.mp hm with hm | hm
          · exact hlt m hm
          · rcases List.mem_singleton.mp hm with rfl
            exact hiltn
        · exact (hrange m (hprop m hm).1).2
      have hsound' : ∀ g ∈ groups ++ [[i] ++ d], ∃ h t, g = h :: t ∧ h < n
          ∧ ∀ j ∈ t, h < j ∧ j < n ∧ sim h j > 3 / 10 := by
        intro g hg
        rcases List.mem_append.mp hg with hg | hg
        · exact hsound g hg
        · rcases List.mem_singleton.mp hg with rfl
          refine ⟨i, d, rfl, hiltn, ?_⟩
          intro j hj
          rcases hprop j hj with ⟨hjr, hjs, _⟩
          exact ⟨(hrange j hjr).1, (hrange j hjr).2, hjs⟩
      have hcompl' : CompleteAt sim n (groups ++ [[i] ++ d]) := by
        intro k h t hget j hhj hjn hsim
        by_cases hk : k < groups.length
        · have hget0 : groups.get? k = some (h :: t) := by
            rwa [List.get?_append hk] at hget
          have := hcompl k h t hget0 j hhj hjn hsim
          rw [List.take_append_of_le_length (by omega)]
          exact this
        · have hk2 : k = groups.length := by
            by_contra hk2
            have hgt : groups.length < k := by omega
            have hnone : (groups ++ [[i] ++ d]).get? k = none := by
              apply List.get?_eq_none.mpr
              simp
              omega
            rw [hnone] at hget
            exact Option.noConfusion hget
          subst hk2
          have hget1 : some ([i] ++ d) = some (h :: t) := by
            rw [← hget]
            simp [List.getElem?_concat_length]
          have hih : h = i ∧ t = d := by
            have := Option.some.inj hget1
            simp at this
            exact ⟨this.1.symm, this.2.symm⟩
          rcases hih with ⟨rfl, rfl⟩
          have hjrange : j ∈ List.range' (h + 1) (n - (h + 1)) := by
            refine List.mem_range'_1.mpr ⟨by omega, by omega⟩
          have hju := hcomplA j hjrange hsim
          rw [List.take_of_length_le (by simp)]
          rw [← hflat']
          simpa using hju
      have hresult := ih (groups ++ [[i] ++ d]) ((used ++ [i]) ++ d)
        (fun m hm => hin m (by simp [hm])) (by simpa using hflat') (by simpa using hnd')
        (by simpa using hlt') hsound' hcompl'
      refine ⟨hresult.1, hresult.2.1, ?_, ?_, hresult.2.2.2.2.1, hresult.2.2.2.2.2⟩
      · intro m hm
        exact hresult.2.2.1 m (by simp [hm])
      · intro m hm
        rcases List.mem_cons.mp hm with hm | hm
        · exact hresult.2.2.1 m (by simp [hm])
        · exact hresult.2.2.2.1 m hm

theorem buildGroups_spec (sim : Nat → Nat → ℚ) (n : Nat) :
    (buildGroups sim n).flatten.Perm (List.range n)
    ∧ (∀ g ∈ buildGroups sim n, ∃ h t, g = h :: t ∧ h < n
        ∧ ∀ j ∈ t, h < j ∧ j < n ∧ sim h j > 3 / 10)
    ∧ CompleteAt sim n (buildGroups sim n) := by
  have hspec := groupLoop_spec sim n (List.range n) [] []
    (fun m hm => List.mem_range.mp hm) (by simp) (by simp) (by simp)
    (by simp) (by intro k h t hget; simp at hget)
  refine ⟨?_, hspec.2.2.2.2.1, hspec.2.2.2.2.2⟩
  rw [show buildGroups sim n = groupLoop sim n (List.range n) [] [] from rfl]
  rw [List.perm_ext_iff_of_nodup hspec.1 (List.nodup_range n)]
  intro a
  constructor
  · intro ha
    exact List.mem_range.mpr (hspec.2.1 a ha)
  · intro ha
    exact hspec.2.2.2.1 a ha

/-- C8 (confirmed): `_group_similar_chunks` returns one singleton group
per chunk for 3 or fewer chunks and on any vectorization error; otherwise
it clusters greedily: the groups partition the chunk indices (the
concatenation of the groups is a permutation of `0..n-1`), every group is
headed by its first (smallest-index) member and every absorbed member is a
later index whose similarity with the head exceeds `0.3`, and every later
index similar enough to a group's head is already assigned by the time
that group is closed. -/
theorem C8_similarity_grouping {α : Type} (contentOf : α → String)
    (vectorize : List String → Except String (Nat → Nat → ℚ))
    (chunks : List α) (sim : Nat → Nat → ℚ) (n : Nat) :
    (chunks.length ≤ 3 →
      groupSimilarChunks contentOf vectorize chunks = chunks.map (fun c => [c]))
    ∧ (∀ e, vectorize (chunks.map contentOf) = .error e →
        groupSimilarChunks contentOf vectorize chunks = chunks.map (fun c => [c]))
    ∧ (∀ simOk, vectorize (chunks.map contentOf) = .ok simOk → 3 < chunks.length →
        groupSimilarChunks contentOf vectorize chunks
          = (buildGroups simOk chunks.length).map (fun g => g.filterMap (fun i => chunks.get? i)))
    ∧ (buildGroups sim n).flatten.Perm (List.range n)
    ∧ (∀ g ∈ buildGroups sim n, ∃ h t, g = h :: t ∧ h < n
        ∧ ∀ j ∈ t, h < j ∧ j < n ∧ sim h j > 3 / 10)
    ∧ (∀ k h t, (buildGroups sim n).get? k = some (h :: t) →
        ∀ j, h < j → j < n → sim h j > 3 / 10 →
        j ∈ ((buildGroups sim n).take (k + 1)).flatten) := by
  refine ⟨?_, ?_, ?_, (buildGroups_spec sim n).1, (buildGroups_spec sim n).2.1,
    (buildGroups_spec sim n).2.2⟩
  · intro hlen
    simp [groupSimilarChunks, hlen]
  · intro e herr
    by_cases hlen : chunks.length ≤ 3
    · simp [groupSimilarChunks, hlen]
    · simp [groupSimilarChunks, hlen, herr]
  · intro simOk hok hlen
    simp [groupSimilarChunks, Nat.not_le.mpr hlen, hok]

/-- Witness for C8 at concrete inputs: two chunks give singletons, a
vectorization error on four chunks gives singletons, and a concrete
4-index clustering partitions the indices. -/
theorem C8_similarity_grouping_witness :
    groupSimilarChunks (fun s : String => s) (fun _ => .error "empty vocabulary")
      ["chunk A", "chunk B"] = [["chunk A"], ["chunk B"]]
    ∧ groupSimilarChunks (fun s : String => s) (fun _ => .error "empty vocabulary")
      ["a", "b", "c", "d"] = [["a"], ["b"], ["c"], ["d"]]
    ∧ (buildGroups (fun _ _ => (1 : ℚ)) 4).flatten.Perm (List.range 4) := by
  refine ⟨?_, ?_, ?_⟩
  · exact (C8_similarity_grouping (fun s => s) (fun _ => .error "empty vocabulary")
      ["chunk A", "chunk B"] (fun _ _ => 1) 4).1 (by decide)
  · exact (C8_similarity_grouping (fun s => s) (fun _ => .error "empty vocabulary")
      ["a", "b", "c", "d"] (fun _ _ => 1) 4).2.1 "empty vocabulary" rfl
  · exact (C8_similarity_grouping (fun s : String => s)
      (fun _ => .error "empty vocabulary") ["a", "b", "c", "d"] (fun _ _ => 1) 4).2.2.2.1

theorem keywordImportance_eq_find (name : String) (tbl : List (String × Nat)) :
    keywordImportance name tbl
      = ((tbl.find? (fun p => strContains name p.1)).map Prod.snd).getD 0 := by
  induction tbl with
  | nil => rfl
  | cons p rest ih =>
    rcases p with ⟨kw, w⟩
    by_cases hp : strContains name kw = true
    · simp [keywordImportance, List.find?, hp]
    · simp only [Bool.not_eq_true] at hp
      simp [keywordImportance, List.find?, hp, ih]

theorem addToGroup_utilities_mem (g : FileGroups) (x f : OFile)
    (h1 : anyContains (strLowerAscii f.name) ["main", "index", "app", "server"] = false)
    (h2 : anyContains (strLowerAscii f.path)
      ["model", "service", "controller", "business", "logic"] = false)
    (h3 : anyContains (strLowerAscii f.name) ["config", "settings", "package", ".env"] = false)
    (h4 : anyContains (strLowerAscii f.path) ["test", "spec", "__test__"] = false)
    (h5 : anyContains (strLowerAscii f.name) ["readme", "doc", "guide"] = false) :
    f ∈ (addToGroup g x).utilities ↔ f ∈ g.utilities ∨ x = f := by
  by_cases hx : x = f
  · subst hx
    simp [addToGroup, h1, h2, h3, h4, h5]
  · unfold addToGroup
    dsimp only
    split
    · simp [hx]
    · split
      · simp [hx]
      · split
        · simp [hx]
        · split
          · simp [hx]
          · split
            · simp [hx]
            · simp [hx, eq_comm]

theorem foldl_addToGroup_utilities_mem (files : List OFile) (g : FileGroups) (f : OFile)
    (h1 : anyContains (strLowerAscii f.name) ["main", "index", "app", "server"] = false)
    (h2 : anyContains (strLowerAscii f.path)
      ["model", "service", "controller", "business", "logic"] = false)
    (h3 : anyContains (strLowerAscii f.name) ["config", "settings", "package", ".env"] = false)
    (h4 : anyContains (strLowerAscii f.path) ["test", "spec", "__test__"] = false)
    (h5 : anyContains (strLowerAscii f.name) ["readme", "doc", "guide"] = false) :
    f ∈ (files.foldl addToGroup g).utilities ↔ f ∈ g.utilities ∨ f ∈ files := by
  induction files generalizing g with
  | nil => simp
  | cons x rest ih =>
    rw [List.foldl_cons, ih (addToGroup g x),
      addToGroup_utilities_mem g x f h1 h2 h3 h4 h5]
    simp only [List.mem_cons]
    tauto

theorem sortByImportanceDesc_sorted (l : List OFile) :
    List.Sorted (fun a b => calculateFileImportance b ≤ calculateFileImportance a)
      (sortByImportanceDesc l) := by
  haveI : IsTotal OFile (fun a b => calculateFileImportance b ≤ calculateFileImportance a) :=
    ⟨fun a b => Nat.le_total _ _⟩
  haveI : IsTrans OFile (fun a b => calculateFileImportance b ≤ calculateFileImportance a) :=
    ⟨fun a b c hab hbc => le_trans hbc hab⟩
  exact List.sorted_insertionSort _ l

/-- C9 (confirmed): the importance score is the weight of the first
matching name keyword of the ordered table (0 when none matches) plus the
language-priority lookup (default 30 for unknown languages) plus the size
bonus `lines/50` capped at 30 (all scaled by 50 to stay in integers);
every file matching none of the bucket patterns lands in `utilities`
(and nothing else lands there); and every bucket is sorted by this score
in descending order. -/
theorem C9_importance_bucketing (files : List OFile) (f : OFile) :
    (calculateFileImportance f
      = 50 * (((importanceWeights.find?
            (fun p => strContains (strLowerAscii f.name) p.1)).map Prod.snd).getD 0)
        + 50 * ((languagePriorities.lookup (strLowerAscii f.language)).getD 30)
        + min f.lines 1500)
    ∧ (anyContains (strLowerAscii f.name) ["main", "index", "app", "server"] = false →
        anyContains (strLowerAscii f.path)
          ["model", "service", "controller", "business", "logic"] = false →
        anyContains (strLowerAscii f.name) ["config", "settings", "package", ".env"] = false →
        anyContains (strLowerAscii f.path) ["test", "spec", "__test__"] = false →
        anyContains (strLowerAscii f.name) ["readme", "doc", "guide"] = false →
        (f ∈ (groupFilesByType files).utilities ↔ f ∈ files))
    ∧ List.Sorted (fun a b => calculateFileImportance b ≤ calculateFileImportance a)
        (groupFilesByType files).core
    ∧ List.Sorted (fun a b => calculateFileImportance b ≤ calculateFileImportance a)
        (groupFilesByType files).businessLogic
    ∧ List.Sorted (fun a b => calculateFileImportance b ≤ calculateFileImportance a)
        (groupFilesByType files).configuration
    ∧ List.Sorted (fun a b => calculateFileImportance b ≤ calculateFileImportance a)
        (groupFilesByType files).utilities
    ∧ List.Sorted (fun a b => calculateFileImportance b ≤ calculateFileImportance a)
        (groupFilesByType files).tests
    ∧ List.Sorted (fun a b => calculateFileImportance b ≤ calculateFileImportance a)
        (groupFilesByType files).documentation := by
  refine ⟨?_, ?_, ?_, ?_, ?_, ?_, ?_, ?_⟩
  · rw [calculateFileImportance, keywordImportance_eq_find]
  · intro h1 h2 h3 h4 h5
    have hperm := List.perm_insertionSort
      (fun a b => calculateFileImportance b ≤ calculateFileImportance a)
      ((files.foldl addToGroup
        { core := [], businessLogic := [], configuration := [], utilities := []
          tests := [], documentation := [] }).utilities)
    rw [show (groupFilesByType files).utilities = sortByImportanceDesc
        ((files.foldl addToGroup
          { core := [], businessLogic := [], configuration := [], utilities := []
            tests := [], documentation := [] }).utilities) from rfl]
    rw [sortByImportanceDesc, List.Perm.mem_iff hperm]
    rw [foldl_addToGroup_utilities_mem files _ f h1 h2 h3 h4 h5]
    simp
  all_goals exact sortByImportanceDesc_sorted _



/-- Witness for C9 on a concrete two-file input: the unmatched text file
lands in the (importance-sorted) `utilities` bucket and its score follows
the formula. -/
theorem C9_importance_bucketing_witness :
    calculateFileImportance fMiscW
      = 50 * (((importanceWeights.find?
            (fun p => strContains (strLowerAscii fMiscW.name) p.1)).map Prod.snd).getD 0)
        + 50 * ((languagePriorities.lookup (strLowerAscii fMiscW.language)).getD 30)
        + min fMiscW.lines 1500
    ∧ (fMiscW ∈ (groupFilesByType [fMainW, fMiscW]).utilities ↔ fMiscW ∈ [fMainW, fMiscW])
    ∧ List.Sorted (fun a b => calculateFileImportance b ≤ calculateFileImportance a)
        (groupFilesByType [fMainW, fMiscW]).utilities :=
  ⟨(C9_importance_bucketing [fMainW, fMiscW] fMiscW).1,
   (C9_importance_bucketing [fMainW, fMiscW] fMiscW).2.1
     (by decide) (by decide) (by decide) (by decide) (by decide),
   (C9_importance_bucketing [fMainW, fMiscW] fMiscW).2.2.2.2.2.1⟩
